import Mathlib

/-!
A verification development for `codex_sessions.py`: a shallow embedding of the
transcript parser, the sync engine's change detection, the query builder, the
search ranking, the live-browser query editing, and the preview renderer,
together with theorems settling the specification's claims.

Python strings are modelled as Lean `String` (ASCII behaviour; the program
consumes ASCII JSON logs).  Python stdlib functions that the code calls
(`json.loads`, `datetime.fromisoformat(...).timestamp()`) are modelled as
explicit environment parameters, since they are not code of this repository.
-/

set_option maxRecDepth 100000

/-- Python `str.strip()` whitespace set (ASCII part): space, tab, newline,
carriage return, vertical tab, form feed. -/
def isPySpace (c : Char) : Bool :=
  c = ' ' || c = '\t' || c = '\n' || c = '\r' || c = '\x0b' || c = '\x0c'

/-- Python `str.strip()` on a character list. -/
def pyStripL (l : List Char) : List Char :=
  ((l.dropWhile isPySpace).reverse.dropWhile isPySpace).reverse

/-- Python `str.strip()`. -/
def pyStripS (s : String) : String := ⟨pyStripL s.data⟩

/-- Python `str.rstrip()` on a character list. -/
def pyRstripL (l : List Char) : List Char :=
  (l.reverse.dropWhile isPySpace).reverse

/-- Python `str.lower()` (ASCII). -/
def lowerS (s : String) : String := ⟨s.data.map Char.toLower⟩

/-- Python `str.upper()` (ASCII). -/
def upperS (s : String) : String := ⟨s.data.map Char.toUpper⟩

/-- Python slice `s[:n]`. -/
def takeS (n : Nat) (s : String) : String := ⟨s.data.take n⟩

/-- A JSON value, the result of a successful `json.loads`.  JSON numbers are
modelled as integers: the code never reads a numeric field (timestamps are
strings), so fractional values play no role. -/
inductive JVal where
  | null : JVal
  | bool (b : Bool) : JVal
  | num (n : Int) : JVal
  | str (s : String) : JVal
  | arr (items : List JVal) : JVal
  | obj (fields : List (String × JVal)) : JVal

/-- Lookup in a JSON object, `dict.get(key)` in Python.  `json.loads` keeps
the last binding of a duplicated key, so the lookup scans the reversed field
list. -/
def jget (fields : List (String × JVal)) (key : String) : Option JVal :=
  (fields.reverse.find? (fun p => p.1 == key)).map Prod.snd

/-- Python truthiness of a JSON-decoded value. -/
def jTruthy : JVal → Bool
  | .null => false
  | .bool b => b
  | .num n => n ≠ 0
  | .str s => s ≠ ""
  | .arr items => !items.isEmpty
  | .obj fields => !fields.isEmpty

/-- The Python stdlib functions the parser calls, as an abstract environment:
`jsonLoads s` models `json.loads(s)` (`none` = `JSONDecodeError`, `some v` =
the decoded value), and `isoEpoch s` models
`int(datetime.fromisoformat(s).timestamp())` (`none` = any exception). -/
structure PyEnv where
  jsonLoads : String → Option JVal
  isoEpoch : String → Option Int

/-- Embeds `_epoch_seconds_from_iso`: rewrites a trailing `Z` to `+00:00`,
then delegates to `fromisoformat(...).timestamp()` with `int` truncation. -/
def _epoch_seconds_from_iso (env : PyEnv) (iso_ts : String) : Option Int :=
  match iso_ts.data.reverse with
  | 'Z' :: rest => env.isoEpoch ⟨rest.reverse ++ "+00:00".data⟩
  | _ => env.isoEpoch iso_ts

/-- Embeds `_maybe_parse_json_dict`: `json.loads` a string and keep the result
only when it is a JSON object. -/
def _maybe_parse_json_dict (env : PyEnv) : Option JVal → Option (List (String × JVal))
  | some (.str s) =>
    match env.jsonLoads s with
    | some (.obj fields) => some fields
    | _ => none
  | _ => none

/-- The items iterated by `for item in payload.get("content") or []`.
`none` models an uncaught `TypeError` (iterating a non-iterable truthy value);
iterating a string or a dict yields characters or keys, none of which pass the
`isinstance(item, dict)` check, hence the empty list. -/
def contentItems : Option JVal → Option (List JVal)
  | some (.arr items) => some items
  | some (.str _) => some []
  | some (.obj _) => some []
  | some (.num n) => if n = 0 then some [] else none
  | some (.bool b) => if b then none else some []
  | some .null => some []
  | none => some []

/-- One item of the `_extract_text_from_message_payload` loop: the text the
item contributes, if any. -/
def extractItemText : JVal → Option String
  | .obj fields =>
    match jget fields "type" with
    | some (.str "input_text") =>
      match jget fields "text" with
      | some (.str txt) => if pyStripS txt ≠ "" then some txt else none
      | _ => none
    | some (.str "output_text") =>
      match jget fields "text" with
      | some (.str txt) => if pyStripS txt ≠ "" then some txt else none
      | _ => none
    | some (.str "tool_result") =>
      -- txt = item.get("output") or item.get("text")
      let txtv := match jget fields "output" with
        | some v => if jTruthy v then some v else jget fields "text"
        | none => jget fields "text"
      match txtv with
      | some (.str txt) => if pyStripS txt ≠ "" then some txt else none
      | _ => none
    | _ => none
  | _ => none

/-- Embeds `_extract_text_from_message_payload`; `none` models an uncaught
`TypeError` from iterating a non-iterable `content` value. -/
def _extract_text_from_message_payload (payload : List (String × JVal)) :
    Option String :=
  match contentItems (jget payload "content") with
  | none => none
  | some items =>
    let parts := items.filterMap extractItemText
    some (pyStripS (String.intercalate "\n" parts))

/-- First index at which `pat` occurs in `s` (Python `s.find(pat)`, with
`none` for `-1`). -/
def findSub (pat : List Char) : List Char → Option Nat
  | [] => if pat.isEmpty then some 0 else none
  | c :: rest =>
    if pat.isPrefixOf (c :: rest) then some 0
    else (findSub pat rest).map (· + 1)

/-- Remove every (non-greedy, case-insensitive, dot-all) `openT ... closeT`
span: the behaviour of `re.sub("<tag>.*?</tag>", "", s, IGNORECASE|DOTALL)`.
The emptiness guard never fires for the literal tags the code uses. -/
def removeTagSpans (openT closeT : List Char) (s : List Char) : List Char :=
  if h0 : openT.isEmpty || closeT.isEmpty || s.isEmpty then s
  else
    match findSub (openT.map Char.toLower) (s.map Char.toLower) with
    | none => s
    | some i =>
      match findSub (closeT.map Char.toLower) ((s.drop (i + openT.length)).map Char.toLower) with
      | none => s
      | some j =>
        s.take i ++ removeTagSpans openT closeT ((s.drop (i + openT.length)).drop (j + closeT.length))
termination_by s.length
decreasing_by
  simp only [List.length_drop]
  have h1 : openT ≠ [] := by
    intro h
    exact h0 (by simp [h])
  have h2 : s ≠ [] := by
    intro h
    exact h0 (by simp [h])
  have h3 : 0 < openT.length := List.length_pos.mpr h1
  have h4 : 0 < s.length := List.length_pos.mpr h2
  omega

/-- Split on a newline character (every piece kept, like `str.split("\n")`). -/
def splitOnNl : List Char → List (List Char)
  | [] => [[]]
  | c :: rest =>
    match splitOnNl rest with
    | [] => [[]]
    | h :: t => if c = '\n' then [] :: h :: t else (c :: h) :: t

/-- Python `str.splitlines()` for strings whose only line break is `\n`: like
`split("\n")` but with no trailing empty piece, and empty input gives no
lines. -/
def pySplitlines (l : List Char) : List (List Char) :=
  if l = [] then []
  else if l.getLast? = some '\n' then (splitOnNl l).dropLast
  else splitOnNl l

/-- Dropping a while-prefix never lengthens a list. -/
theorem dropWhile_length_le {α : Type} (p : α → Bool) (l : List α) :
    (l.dropWhile p).length ≤ l.length := by
  induction l with
  | nil => simp
  | cons c rest ih =>
    by_cases h : p c
    · simp only [List.dropWhile, h]
      exact Nat.le_succ_of_le ih
    · simp [List.dropWhile, h]

/-- Collapse every run of three or more newlines to exactly two:
`re.sub("\n{3,}", "\n\n", s)`. -/
def collapseNl (l : List Char) : List Char :=
  match l with
  | [] => []
  | c :: rest =>
    if c = '\n' then
      let run := 1 + (rest.takeWhile (fun d => d = '\n')).length
      (if run ≥ 3 then ['\n', '\n'] else List.replicate run '\n') ++
        collapseNl (rest.dropWhile (fun d => d = '\n'))
    else c :: collapseNl rest
termination_by l.length
decreasing_by
  · have := dropWhile_length_le (fun d => d = '\n') rest
    simp only [List.length_cons]
    omega
  · simp

/-- Whether a line matches `^#\s*AGENTS\.md.*$` case-insensitively. -/
def agentsLineMatch (l : List Char) : Bool :=
  match l with
  | '#' :: rest => "agents.md".data.isPrefixOf ((rest.dropWhile isPySpace).map Char.toLower)
  | _ => false

/-- Join pieces with a newline. -/
def joinNl (ls : List (List Char)) : List Char := List.intercalate ['\n'] ls

/-- Embeds `_strip_boilerplate`. -/
def _strip_boilerplate (text : String) : String :=
  let s := text.data
  let s := removeTagSpans "<environment_context>".data "</environment_context>".data s
  let s := removeTagSpans "<user_instructions>".data "</user_instructions>".data s
  let s := removeTagSpans "<instructions>".data "</instructions>".data s
  -- re.sub("^#\s*AGENTS\.md.*$", "", s, IGNORECASE | MULTILINE)
  let s := joinNl ((splitOnNl s).map (fun line => if agentsLineMatch line then [] else line))
  let s := s.filter (fun c => c ≠ '\r')
  let s := collapseNl s
  let s := joinNl ((pySplitlines s).map pyRstripL)
  pyStripS ⟨s⟩

/-- The per-file parser state of `parse_codex_session_file`'s loop. -/
structure ScanState where
  sessionId : Option String
  createdAt : Option Int
  cwd : String
  cliVersion : String
  updatedAt : Option Int
  messages : List (String × String)
  toolNames : List (String × String)
deriving DecidableEq

/-- Initial parser state. -/
def ScanState.init : ScanState :=
  { sessionId := none, createdAt := none, cwd := "", cliVersion := "",
    updatedAt := none, messages := [], toolNames := [] }

/-- Python dict assignment `d[k] = v` on an association list. -/
def dictSet (d : List (String × String)) (k v : String) : List (String × String) :=
  if d.any (fun p => p.1 == k) then d.map (fun p => if p.1 == k then (k, v) else p)
  else d ++ [(k, v)]

/-- Python `d.get(k, "")` on an association list. -/
def dictGetD (d : List (String × String)) (k : String) : String :=
  match d.find? (fun p => p.1 == k) with
  | some p => p.2
  | none => ""

/-- Value of an optional JSON field when it is a string, else a default:
the `x if isinstance(x, str) else ""` idiom. -/
def asStrD (v : Option JVal) (dflt : String) : String :=
  match v with
  | some (.str s) => s
  | _ => dflt

/-- Outcome of processing one line of the transcript file. -/
inductive ScanOut where
  | ok (st : ScanState)
  | badLine
  | crash
deriving DecidableEq

/-- Processing of the `session_meta` branch (each field is re-assigned on
every occurrence; a string payload timestamp re-assigns `created_at` with the
possibly-failed parse result). -/
def scanMeta (env : PyEnv) (st : ScanState) (payload : List (String × JVal)) : ScanState :=
  let st := match jget payload "id" with
    | some (.str sid) => { st with sessionId := some sid }
    | _ => st
  let st := match jget payload "timestamp" with
    | some (.str ciso) => { st with createdAt := _epoch_seconds_from_iso env ciso }
    | _ => st
  let st := match jget payload "cwd" with
    | some (.str c) => { st with cwd := c }
    | _ => st
  match jget payload "cli_version" with
  | some (.str v) => { st with cliVersion := v }
  | _ => st

/-- Processing of the `response_item` / `message` branch. -/
def scanMessage (st : ScanState) (payload : List (String × JVal)) : ScanOut :=
  match jget payload "role" with
  | some (.str role) =>
    if role = "user" ∨ role = "assistant" then
      match _extract_text_from_message_payload payload with
      | none => .crash
      | some text =>
        if text = "" then .ok st
        else if role = "user" then
          let text := _strip_boilerplate text
          if text = "" then .ok st
          else .ok { st with messages := st.messages ++ [(role, text)] }
        else .ok { st with messages := st.messages ++ [(role, text)] }
    else .ok st
  | _ => .ok st

/-- Processing of the `function_call` branch.  When `arguments` is not a
string, `_maybe_parse_json_dict` returns `None`, so the `json.dumps(args_dict)`
alternative of the source is unreachable and the fallback is `""`. -/
def scanFunctionCall (env : PyEnv) (st : ScanState) (payload : List (String × JVal)) : ScanState :=
  let name := asStrD (jget payload "name") ""
  let call_id := asStrD (jget payload "call_id") ""
  let args := jget payload "arguments"
  let args_dict := _maybe_parse_json_dict env args
  let st := if call_id ≠ "" ∧ name ≠ "" then { st with toolNames := dictSet st.toolNames call_id name }
    else st
  let tool_text :=
    match args_dict with
    | some d =>
      -- if args_dict and name == "exec_command": an empty dict is falsy
      if ¬d.isEmpty ∧ name = "exec_command" then
        match jget d "cmd" with
        | some (.str cmd) => if pyStripS cmd ≠ "" then pyStripS cmd else ""
        | _ => ""
      else ""
    | none => ""
  let tool_text := if tool_text = "" then (match args with | some (.str s) => s | _ => "") else tool_text
  if tool_text ≠ "" then
    { st with messages := st.messages ++
        [("tool_call " ++ (if name = "" then "unknown" else name), tool_text)] }
  else st

/-- Processing of the `function_call_output` branch. -/
def scanFunctionCallOutput (st : ScanState) (payload : List (String × JVal)) : ScanState :=
  let call_id := asStrD (jget payload "call_id") ""
  let name := dictGetD st.toolNames call_id
  let out_text := asStrD (jget payload "output") ""
  if out_text ≠ "" then
    let label := if name ≠ "" then "tool_output " ++ name else "tool_output"
    { st with messages := st.messages ++ [(label, out_text)] }
  else st

/-- Processing of the `custom_tool_call` branch. -/
def scanCustomToolCall (st : ScanState) (payload : List (String × JVal)) : ScanState :=
  let name := asStrD (jget payload "name") ""
  let call_id := asStrD (jget payload "call_id") ""
  let inp_text := asStrD (jget payload "input") ""
  let st := if call_id ≠ "" ∧ name ≠ "" then { st with toolNames := dictSet st.toolNames call_id name }
    else st
  if inp_text ≠ "" then
    { st with messages := st.messages ++
        [("tool_call " ++ (if name = "" then "unknown" else name), inp_text)] }
  else st

/-- Processing of the `custom_tool_call_output` branch (a string output that is
itself JSON with an inner string `output` field is unwrapped one level; an
empty decoded dict is falsy and is not unwrapped). -/
def scanCustomToolCallOutput (env : PyEnv) (st : ScanState) (payload : List (String × JVal)) : ScanState :=
  let call_id := asStrD (jget payload "call_id") ""
  let name := dictGetD st.toolNames call_id
  let out_text :=
    match jget payload "output" with
    | some (.str out) =>
      match _maybe_parse_json_dict env (some (.str out)) with
      | some d =>
        if ¬d.isEmpty then
          match jget d "output" with
          | some (.str inner) => inner
          | _ => out
        else out
      | none => out
    | _ => ""
  if out_text ≠ "" then
    let label := if name ≠ "" then "tool_output " ++ name else "tool_output"
    { st with messages := st.messages ++ [(label, out_text)] }
  else st

/-- Update of `updated_at` from a record's top-level `timestamp` field. -/
def scanTimestamp (env : PyEnv) (st : ScanState) (fields : List (String × JVal)) : ScanState :=
  match jget fields "timestamp" with
  | some (.str ts) =>
    match _epoch_seconds_from_iso env ts with
    | some t =>
      { st with updatedAt := some (match st.updatedAt with | none => t | some u => max u t) }
    | none => st
  | _ => st

/-- The record's payload when it is an object, else an empty dict:
`obj.get("payload") if isinstance(obj.get("payload"), dict) else \x7b\x7d`. -/
def payloadFields (fields : List (String × JVal)) : List (String × JVal) :=
  match jget fields "payload" with
  | some (.obj fs) => fs
  | _ => []

/-- String content of an optional JSON value; a Python `==` comparison of a
value against a string literal succeeds exactly when the value is that
string. -/
def strOf? (v : Option JVal) : Option String :=
  match v with
  | some (.str s) => some s
  | _ => none

/-- Dispatch on `payload.get("type")` of a `response_item` record. -/
def scanRespItem (env : PyEnv) (st : ScanState) (payload : List (String × JVal)) : ScanOut :=
  match strOf? (jget payload "type") with
  | some t =>
    if t = "message" then scanMessage st payload
    else if t = "function_call" then .ok (scanFunctionCall env st payload)
    else if t = "function_call_output" then .ok (scanFunctionCallOutput st payload)
    else if t = "custom_tool_call" then .ok (scanCustomToolCall st payload)
    else if t = "custom_tool_call_output" then .ok (scanCustomToolCallOutput env st payload)
    else .ok st
  | none => .ok st

/-- Processing of one decoded JSON object record: `if typ == "session_meta"`,
then `if typ != "response_item": continue`, then the payload dispatch. -/
def scanObj (env : PyEnv) (st : ScanState) (fields : List (String × JVal)) : ScanOut :=
  let st := scanTimestamp env st fields
  let payload := payloadFields fields
  match strOf? (jget fields "type") with
  | some t =>
    if t = "session_meta" then .ok (scanMeta env st payload)
    else if t = "response_item" then scanRespItem env st payload
    else .ok st
  | none => .ok st

/-- Processing of one raw line of the transcript file.  A line that fails
`json.loads` raises `JSONDecodeError` (caught at file level: `badLine`); a
line that decodes to a non-object raises an uncaught `AttributeError` on
`obj.get` (`crash`). -/
def scanLine (env : PyEnv) (st : ScanState) (rawLine : String) : ScanOut :=
  let l := pyStripS rawLine
  if l = "" then .ok st
  else
    match env.jsonLoads l with
    | none => .badLine
    | some (.obj fields) => scanObj env st fields
    | some _ => .crash

/-- Processing of all lines in order, stopping at the first failure. -/
def scanLines (env : PyEnv) (st : ScanState) : List String → ScanOut
  | [] => .ok st
  | l :: ls =>
    match scanLine env st l with
    | .ok st' => scanLines env st' ls
    | .badLine => .badLine
    | .crash => .crash

/-- The normalized document produced per parse (`SessionDoc` in the source). -/
structure SessionDoc where
  session_id : String
  created_at : Int
  updated_at : Int
  cwd : String
  cli_version : String
  file_path : String
  title : String
  preview : String
  content : String
deriving DecidableEq

/-- Result of `parse_codex_session_file`: a document, `None`, or an uncaught
exception escaping the function. -/
inductive ParseResult where
  | doc (d : SessionDoc)
  | noDoc
  | crash
deriving DecidableEq

/-- Finalization of the scan state into a `SessionDoc` (the tail of
`parse_codex_session_file` after the loop).  Note the Python falsiness
subtlety kept by the model: in
`created_at = updated_at or int(path.stat().st_mtime)` a zero `updated_at`
falls through to the file mtime. -/
def sessionDocFromState (filePath fileName : String) (mtime : Int) (st : ScanState)
    (sid : String) : SessionDoc :=
  let created : Int :=
    match st.createdAt with
    | some c => c
    | none =>
      match st.updatedAt with
      | some u => if u = 0 then mtime else u
      | none => mtime
  let updated : Int :=
    match st.updatedAt with
    | some u => u
    | none => created
  let user_messages := (st.messages.filter
    (fun m => m.1 = "user" ∧ ¬m.2.data.length < 8)).map Prod.snd
  let title := match user_messages.head? with
    | some m => takeS 200 m
    | none => ""
  let title := if title = "" then fileName else title
  let preview := match user_messages.getLast? with
    | some m => takeS 240 m
    | none => ""
  let content := pyStripS (String.intercalate "\n\n"
    (st.messages.map (fun m => m.1 ++ ": " ++ m.2)))
  { session_id := sid, created_at := created, updated_at := updated,
    cwd := st.cwd, cli_version := st.cliVersion, file_path := filePath,
    title := title, preview := preview, content := content }

/-- Embeds `parse_codex_session_file`.  The file is given as `none` when it
cannot be opened (`FileNotFoundError`) or as its list of raw lines; `mtime` is
`int(path.stat().st_mtime)`, `filePath` is `str(path)` and `fileName` is
`path.name`.  The Python truthiness test `if not session_id` also discards an
empty-string id. -/
def parse_codex_session_file (env : PyEnv) (filePath fileName : String) (mtime : Int)
    (fileLines : Option (List String)) : ParseResult :=
  match fileLines with
  | none => .noDoc
  | some lines =>
    match scanLines env ScanState.init lines with
    | .badLine => .noDoc
    | .crash => .crash
    | .ok st =>
      match st.sessionId with
      | none => .noDoc
      | some sid =>
        if sid = "" then .noDoc
        else .doc (sessionDocFromState filePath fileName mtime st sid)

/-! ### Characterization of the parser's `session_meta` fields -/

/-- The four state components controlled by `session_meta` records. -/
def metaQuad (st : ScanState) : Option String × Option Int × String × String :=
  (st.sessionId, st.createdAt, st.cwd, st.cliVersion)

/-- The assignments a single record performs on the `session_meta`-controlled
components (`none` = field untouched). -/
structure MetaAssign where
  idA : Option String
  createdA : Option (Option Int)
  cwdA : Option String
  cliA : Option String

/-- A record that assigns nothing. -/
def MetaAssign.nil : MetaAssign := ⟨none, none, none, none⟩

/-- Application of one record's assignments to the component quadruple. -/
def applyAssign (a : MetaAssign) (q : Option String × Option Int × String × String) :
    Option String × Option Int × String × String :=
  ((match a.idA with | some s => some s | none => q.1),
   (match a.createdA with | some v => v | none => q.2.1),
   (match a.cwdA with | some w => w | none => q.2.2.1),
   (match a.cliA with | some v => v | none => q.2.2.2))

/-- The assignments performed by a `session_meta` payload. -/
def metaAssignOfPayload (env : PyEnv) (payload : List (String × JVal)) : MetaAssign :=
  ⟨(match jget payload "id" with | some (.str s) => some s | _ => none),
   (match jget payload "timestamp" with
    | some (.str c) => some (_epoch_seconds_from_iso env c)
    | _ => none),
   (match jget payload "cwd" with | some (.str w) => some w | _ => none),
   (match jget payload "cli_version" with | some (.str v) => some v | _ => none)⟩

/-- The assignments performed by a decoded record object. -/
def metaAssignOfObj (env : PyEnv) (fields : List (String × JVal)) : MetaAssign :=
  match strOf? (jget fields "type") with
  | some t => if t = "session_meta" then metaAssignOfPayload env (payloadFields fields)
    else MetaAssign.nil
  | none => MetaAssign.nil

/-- The assignments performed by a raw line. -/
def metaAssignOfLine (env : PyEnv) (rawLine : String) : MetaAssign :=
  let l := pyStripS rawLine
  if l = "" then MetaAssign.nil
  else
    match env.jsonLoads l with
    | some (.obj fields) => metaAssignOfObj env fields
    | _ => MetaAssign.nil

theorem applyAssign_nil (q : Option String × Option Int × String × String) :
    applyAssign MetaAssign.nil q = q := rfl

theorem scanTimestamp_quad (env : PyEnv) (st : ScanState) (fields : List (String × JVal)) :
    metaQuad (scanTimestamp env st fields) = metaQuad st := by
  unfold scanTimestamp
  cases jget fields "timestamp" with
  | none => rfl
  | some v =>
    cases v with
    | str s =>
      dsimp only
      cases _epoch_seconds_from_iso env s <;> rfl
    | null => rfl
    | bool b => rfl
    | num n => rfl
    | arr items => rfl
    | obj fs => rfl

theorem scanMeta_quad (env : PyEnv) (st : ScanState) (payload : List (String × JVal)) :
    metaQuad (scanMeta env st payload) =
      applyAssign (metaAssignOfPayload env payload) (metaQuad st) := by
  unfold scanMeta metaAssignOfPayload
  dsimp only
  repeat' split
  all_goals rfl

theorem scanMessage_quad (st : ScanState) (payload : List (String × JVal)) (st' : ScanState)
    (h : scanMessage st payload = .ok st') : metaQuad st' = metaQuad st := by
  unfold scanMessage at h
  repeat' first
    | split at h
    | dsimp only at h
  all_goals first
    | exact ScanOut.noConfusion h
    | (injection h with h2; subst h2; rfl)

theorem scanFunctionCall_quad (env : PyEnv) (st : ScanState) (payload : List (String × JVal)) :
    metaQuad (scanFunctionCall env st payload) = metaQuad st := by
  unfold scanFunctionCall
  dsimp only
  repeat' split
  all_goals rfl

theorem scanFunctionCallOutput_quad (st : ScanState) (payload : List (String × JVal)) :
    metaQuad (scanFunctionCallOutput st payload) = metaQuad st := by
  unfold scanFunctionCallOutput
  dsimp only
  repeat' split
  all_goals rfl

theorem scanCustomToolCall_quad (st : ScanState) (payload : List (String × JVal)) :
    metaQuad (scanCustomToolCall st payload) = metaQuad st := by
  unfold scanCustomToolCall
  dsimp only
  repeat' split
  all_goals rfl

theorem scanCustomToolCallOutput_quad (env : PyEnv) (st : ScanState)
    (payload : List (String × JVal)) :
    metaQuad (scanCustomToolCallOutput env st payload) = metaQuad st := by
  unfold scanCustomToolCallOutput
  dsimp only
  repeat' split
  all_goals rfl

theorem scanRespItem_quad (env : PyEnv) (st : ScanState) (payload : List (String × JVal))
    (st' : ScanState) (h : scanRespItem env st payload = .ok st') :
    metaQuad st' = metaQuad st := by
  unfold scanRespItem at h
  cases hpt : strOf? (jget payload "type") with
  | none =>
    rw [hpt] at h
    injection h with h2
    subst h2
    rfl
  | some t =>
    rw [hpt] at h
    dsimp only at h
    by_cases h1 : t = "message"
    · rw [if_pos h1] at h
      exact scanMessage_quad _ _ _ h
    · rw [if_neg h1] at h
      by_cases h2 : t = "function_call"
      · rw [if_pos h2] at h
        injection h with hh
        subst hh
        exact scanFunctionCall_quad env st payload
      · rw [if_neg h2] at h
        by_cases h3 : t = "function_call_output"
        · rw [if_pos h3] at h
          injection h with hh
          subst hh
          exact scanFunctionCallOutput_quad st payload
        · rw [if_neg h3] at h
          by_cases h4 : t = "custom_tool_call"
          · rw [if_pos h4] at h
            injection h with hh
            subst hh
            exact scanCustomToolCall_quad st payload
          · rw [if_neg h4] at h
            by_cases h5 : t = "custom_tool_call_output"
            · rw [if_pos h5] at h
              injection h with hh
              subst hh
              exact scanCustomToolCallOutput_quad env st payload
            · rw [if_neg h5] at h
              injection h with hh
              subst hh
              rfl

theorem scanObj_quad (env : PyEnv) (st : ScanState) (fields : List (String × JVal))
    (st' : ScanState) (h : scanObj env st fields = .ok st') :
    metaQuad st' = applyAssign (metaAssignOfObj env fields) (metaQuad st) := by
  have hts := scanTimestamp_quad env st fields
  unfold scanObj at h
  dsimp only at h
  unfold metaAssignOfObj
  cases hty : strOf? (jget fields "type") with
  | none =>
    rw [hty] at h
    injection h with h2
    subst h2
    rw [applyAssign_nil]
    exact hts
  | some t =>
    rw [hty] at h
    dsimp only at h ⊢
    by_cases h1 : t = "session_meta"
    · rw [if_pos h1] at h ⊢
      injection h with h2
      subst h2
      rw [scanMeta_quad, hts]
    · rw [if_neg h1] at h ⊢
      rw [applyAssign_nil]
      by_cases h2 : t = "response_item"
      · rw [if_pos h2] at h
        exact (scanRespItem_quad _ _ _ _ h).trans hts
      · rw [if_neg h2] at h
        injection h with h2
        subst h2
        exact hts

theorem scanLine_quad (env : PyEnv) (st : ScanState) (l : String) (st' : ScanState)
    (h : scanLine env st l = .ok st') :
    metaQuad st' = applyAssign (metaAssignOfLine env l) (metaQuad st) := by
  unfold scanLine at h
  unfold metaAssignOfLine
  dsimp only at h ⊢
  by_cases he : pyStripS l = ""
  · rw [if_pos he] at h ⊢
    injection h with h2
    subst h2
    rw [applyAssign_nil]
  · rw [if_neg he] at h ⊢
    cases hj : env.jsonLoads (pyStripS l) with
    | none =>
      rw [hj] at h
      exact ScanOut.noConfusion h
    | some v =>
      rw [hj] at h
      cases v with
      | obj fields => exact scanObj_quad env st fields st' h
      | null => exact ScanOut.noConfusion h
      | bool b => exact ScanOut.noConfusion h
      | num n => exact ScanOut.noConfusion h
      | str s => exact ScanOut.noConfusion h
      | arr items => exact ScanOut.noConfusion h

theorem scanLines_quad (env : PyEnv) (ls : List String) :
    ∀ (st st' : ScanState), scanLines env st ls = .ok st' →
      metaQuad st' = ls.foldl (fun q l => applyAssign (metaAssignOfLine env l) q) (metaQuad st) := by
  induction ls with
  | nil =>
    intro st st' h
    injection h with h2
    subst h2
    rfl
  | cons l ls ih =>
    intro st st' h
    unfold scanLines at h
    cases hl : scanLine env st l with
    | ok st1 =>
      rw [hl] at h
      rw [List.foldl_cons, ← scanLine_quad env st l st1 hl]
      exact ih st1 st' h
    | badLine => rw [hl] at h; exact ScanOut.noConfusion h
    | crash => rw [hl] at h; exact ScanOut.noConfusion h

/-- Declarative last-assignment-wins: the value of the last line (scanning
from the tail) whose extraction succeeds. -/
def lastWins {α : Type} (f : String → Option α) : List String → Option α
  | [] => none
  | l :: ls =>
    match lastWins f ls with
    | some v => some v
    | none => f l

theorem lastWins_map {α β : Type} (f : String → Option α) (g : α → β) (ls : List String) :
    lastWins (fun l => (f l).map g) ls = (lastWins f ls).map g := by
  induction ls with
  | nil => rfl
  | cons l ls ih =>
    dsimp only [lastWins]
    rw [ih]
    cases lastWins f ls with
    | some v => rfl
    | none => cases f l <;> rfl

/-- One component of the quadruple fold, characterized by the last successful
assignment to that component. -/
theorem foldl_applyAssign_comp {β : Type} (env : PyEnv) (sel : MetaAssign → Option β)
    (proj : (Option String × Option Int × String × String) → β)
    (hcomp : ∀ a q, proj (applyAssign a q) = match sel a with | some v => v | none => proj q) :
    ∀ (ls : List String) (q : Option String × Option Int × String × String),
      proj (ls.foldl (fun q l => applyAssign (metaAssignOfLine env l) q) q) =
        match lastWins (fun l => sel (metaAssignOfLine env l)) ls with
        | some v => v
        | none => proj q := by
  intro ls
  induction ls with
  | nil => intro q; rfl
  | cons l ls ih =>
    intro q
    rw [List.foldl_cons, ih]
    dsimp only [lastWins]
    cases lastWins (fun l => sel (metaAssignOfLine env l)) ls with
    | some v => rfl
    | none =>
      dsimp only
      exact hcomp _ q

/-- Projections of the finalized document. -/
theorem sessionDocFromState_fields (fp fn : String) (mtime : Int) (st : ScanState)
    (sid : String) :
    (sessionDocFromState fp fn mtime st sid).session_id = sid ∧
    (sessionDocFromState fp fn mtime st sid).cwd = st.cwd ∧
    (sessionDocFromState fp fn mtime st sid).cli_version = st.cliVersion ∧
    (sessionDocFromState fp fn mtime st sid).created_at =
      (match st.createdAt with
       | some c => c
       | none =>
         match st.updatedAt with
         | some u => if u = 0 then mtime else u
         | none => mtime) ∧
    (sessionDocFromState fp fn mtime st sid).updated_at =
      (match st.updatedAt with
       | some u => u
       | none =>
         match st.createdAt with
         | some c => c
         | none =>
           match st.updatedAt with
           | some u => if u = 0 then mtime else u
           | none => mtime) := by
  refine ⟨rfl, rfl, rfl, rfl, rfl⟩

/-- Inversion of a successful parse: the scan succeeded, produced the
document's session id, and the document is the finalization of the scan
state. -/
theorem parse_doc_inv (env : PyEnv) (fp fn : String) (mtime : Int) (lines : List String)
    (d : SessionDoc) (h : parse_codex_session_file env fp fn mtime (some lines) = .doc d) :
    ∃ st sid, scanLines env ScanState.init lines = .ok st ∧
      st.sessionId = some sid ∧ sid ≠ "" ∧ d = sessionDocFromState fp fn mtime st sid := by
  unfold parse_codex_session_file at h
  dsimp only at h
  cases hs : scanLines env ScanState.init lines with
  | badLine => rw [hs] at h; exact ParseResult.noConfusion h
  | crash => rw [hs] at h; exact ParseResult.noConfusion h
  | ok st =>
    rw [hs] at h
    dsimp only at h
    cases hsid : st.sessionId with
    | none => rw [hsid] at h; exact ParseResult.noConfusion h
    | some sid =>
      rw [hsid] at h
      dsimp only at h
      by_cases hne : sid = ""
      · rw [if_pos hne] at h; exact ParseResult.noConfusion h
      · rw [if_neg hne] at h
        injection h with h2
        exact ⟨st, sid, rfl, hsid, hne, h2.symm⟩

theorem scanLines_append (env : PyEnv) (pre post : List String) :
    ∀ st, scanLines env st (pre ++ post) =
      match scanLines env st pre with
      | .ok st1 => scanLines env st1 post
      | .badLine => .badLine
      | .crash => .crash := by
  induction pre with
  | nil => intro st; rfl
  | cons l ls ih =>
    intro st
    dsimp only [List.cons_append, scanLines]
    cases scanLine env st l with
    | ok st1 => exact ih st1
    | badLine => rfl
    | crash => rfl

theorem scanLine_badLine (env : PyEnv) (st : ScanState) (l : String)
    (hne : pyStripS l ≠ "") (hbad : env.jsonLoads (pyStripS l) = none) :
    scanLine env st l = .badLine := by
  unfold scanLine
  dsimp only
  rw [if_neg hne, hbad]

/-- C1 (amended): a line that fails to decode as JSON aborts the whole file,
not just that line: whenever some line of the file strips to a non-empty
string on which `json.loads` raises (after any prefix of successfully
processed lines), `parse_codex_session_file` returns `None` for the entire
file, whatever well-formed records surround the corrupt line; and a file that
cannot be opened also yields `None`. -/
theorem c1_unparseable_line_aborts_whole_file (env : PyEnv) (fp fn : String) (mtime : Int)
    (pre post : List String) (l : String) (st : ScanState)
    (hpre : scanLines env ScanState.init pre = .ok st)
    (hne : pyStripS l ≠ "") (hbad : env.jsonLoads (pyStripS l) = none) :
    parse_codex_session_file env fp fn mtime (some (pre ++ l :: post)) = .noDoc ∧
    parse_codex_session_file env fp fn mtime none = .noDoc := by
  constructor
  · unfold parse_codex_session_file
    dsimp only
    rw [scanLines_append env pre (l :: post) ScanState.init, hpre]
    dsimp only [scanLines]
    rw [scanLine_badLine env st l hne hbad]
  · rfl

/-- C3 (amended): for `session_meta` records the last occurrence wins, not
the first: whenever `parse_codex_session_file` returns a document, its
`session_id`, `cwd` and `cli_version` are the values assigned by the last
`session_meta` record carrying a string value for that field, and its
`created_at` is the (successful) timestamp parse of the last `session_meta`
record carrying a string payload timestamp — a later record overwrites values
set by an earlier one. -/
theorem c3_session_meta_last_occurrence_wins (env : PyEnv) (fp fn : String) (mtime : Int)
    (lines : List String) (d : SessionDoc)
    (h : parse_codex_session_file env fp fn mtime (some lines) = .doc d) :
    (∀ s, lastWins (fun l => (metaAssignOfLine env l).idA) lines = some s →
      d.session_id = s) ∧
    (∀ c, lastWins (fun l => (metaAssignOfLine env l).createdA) lines = some (some c) →
      d.created_at = c) ∧
    (∀ w, lastWins (fun l => (metaAssignOfLine env l).cwdA) lines = some w → d.cwd = w) ∧
    (∀ v, lastWins (fun l => (metaAssignOfLine env l).cliA) lines = some v →
      d.cli_version = v) := by
  obtain ⟨st, sid, hs, hsid, hne, hd⟩ := parse_doc_inv env fp fn mtime lines d h
  have hq := scanLines_quad env lines ScanState.init st hs
  obtain ⟨hf1, hf2, hf3, hf4, hf5⟩ := sessionDocFromState_fields fp fn mtime st sid
  have hid := foldl_applyAssign_comp env (fun a => (a.idA).map some) (fun q => q.1)
    (by intro a q; obtain ⟨i, cr, cw, cl⟩ := a; cases i <;> rfl) lines (metaQuad ScanState.init)
  have hcre := foldl_applyAssign_comp env (fun a => a.createdA) (fun q => q.2.1)
    (by intro a q; obtain ⟨i, cr, cw, cl⟩ := a; cases cr <;> rfl) lines (metaQuad ScanState.init)
  have hcwd := foldl_applyAssign_comp env (fun a => a.cwdA) (fun q => q.2.2.1)
    (by intro a q; obtain ⟨i, cr, cw, cl⟩ := a; cases cw <;> rfl) lines (metaQuad ScanState.init)
  have hcli := foldl_applyAssign_comp env (fun a => a.cliA) (fun q => q.2.2.2)
    (by intro a q; obtain ⟨i, cr, cw, cl⟩ := a; cases cl <;> rfl) lines (metaQuad ScanState.init)
  rw [← hq] at hid hcre hcwd hcli
  have hmap : lastWins (fun l => ((metaAssignOfLine env l).idA).map some) lines =
      (lastWins (fun l => (metaAssignOfLine env l).idA) lines).map some :=
    lastWins_map _ some lines
  subst hd
  refine ⟨?_, ?_, ?_, ?_⟩
  · intro s hws
    rw [hmap, hws] at hid
    have h5 : st.sessionId = some s := hid
    rw [hf1]
    exact Option.some.inj (hsid.symm.trans h5)
  · intro c hwc
    rw [hwc] at hcre
    have h6 : st.createdAt = some c := hcre
    rw [hf4, h6]
  · intro w hww
    rw [hww] at hcwd
    have h7 : st.cwd = w := hcwd
    rw [hf2, h7]
  · intro v hwv
    rw [hwv] at hcli
    have h8 : st.cliVersion = v := hcli
    rw [hf3, h8]

/-- C4 (amended): `updated_at >= created_at` holds for every parsed document
whose scan state avoids two writer-side anomalies: a `session_meta` payload
timestamp exceeding every record-level timestamp, and (when no creation
timestamp was parsed) a maximum record timestamp of exactly `0` combined with
a positive file mtime — under those conditions a file whose scan succeeds
with a non-empty session id `sid` parses to a non-null document with
`updated_at >= created_at` and `session_id = sid`. -/
theorem c4_updated_at_ge_created_at (env : PyEnv) (fp fn : String) (mtime : Int)
    (lines : List String) (st : ScanState) (sid : String)
    (hscan : scanLines env ScanState.init lines = .ok st)
    (hsid : st.sessionId = some sid) (hne : sid ≠ "")
    (hcu : ∀ c u, st.createdAt = some c → st.updatedAt = some u → c ≤ u)
    (hzero : st.createdAt = none → st.updatedAt = some 0 → mtime ≤ 0) :
    parse_codex_session_file env fp fn mtime (some lines) =
      .doc (sessionDocFromState fp fn mtime st sid) ∧
    (sessionDocFromState fp fn mtime st sid).created_at ≤
      (sessionDocFromState fp fn mtime st sid).updated_at ∧
    (sessionDocFromState fp fn mtime st sid).session_id = sid := by
  obtain ⟨hf1, hf2, hf3, hf4, hf5⟩ := sessionDocFromState_fields fp fn mtime st sid
  refine ⟨?_, ?_, hf1⟩
  · unfold parse_codex_session_file
    dsimp only
    rw [hscan]
    dsimp only
    rw [hsid]
    dsimp only
    rw [if_neg hne]
  · rw [hf4, hf5]
    cases hc : st.createdAt with
    | some c =>
      cases hu : st.updatedAt with
      | some u => exact hcu c u hc hu
      | none => dsimp only; exact le_refl c
    | none =>
      cases hu : st.updatedAt with
      | some u =>
        by_cases h0 : u = 0
        · subst h0
          dsimp only
          rw [if_pos rfl]
          exact hzero hc hu
        · dsimp only
          rw [if_neg h0]
      | none => dsimp only; exact le_refl mtime

/-! ### Concrete transcript material for the parser claims -/

/-- Epoch values of the ISO timestamps used below, in the `+00:00` form the
code passes to `fromisoformat` after rewriting the `Z` suffix; both are
seconds after 1970-01-01T00:00:00Z, checkable by hand. -/
def isoTable : List (String × Int) :=
  [("1970-01-01T00:01:40+00:00", 100),
   ("1970-01-01T00:03:20+00:00", 200)]

/-- A well-formed `session_meta` record line. -/
def lineMeta1 : String :=
  "\x7b\"timestamp\": \"1970-01-01T00:01:40Z\", \"type\": \"session_meta\", \"payload\": \x7b\"id\": \"sid-1\", \"timestamp\": \"1970-01-01T00:01:40Z\", \"cwd\": \"/tmp\", \"cli_version\": \"0.98.0\"\x7d\x7d"

/-- The `json.loads` decoding of `lineMeta1`. -/
def jvalMeta1 : JVal :=
  .obj [("timestamp", .str "1970-01-01T00:01:40Z"),
        ("type", .str "session_meta"),
        ("payload", .obj [("id", .str "sid-1"),
                          ("timestamp", .str "1970-01-01T00:01:40Z"),
                          ("cwd", .str "/tmp"),
                          ("cli_version", .str "0.98.0")])]

/-- A well-formed assistant `message` record line. -/
def lineMsg1 : String :=
  "\x7b\"timestamp\": \"1970-01-01T00:03:20Z\", \"type\": \"response_item\", \"payload\": \x7b\"type\": \"message\", \"role\": \"assistant\", \"content\": [\x7b\"type\": \"output_text\", \"text\": \"hello from the assistant\"\x7d]\x7d\x7d"

/-- The `json.loads` decoding of `lineMsg1`. -/
def jvalMsg1 : JVal :=
  .obj [("timestamp", .str "1970-01-01T00:03:20Z"),
        ("type", .str "response_item"),
        ("payload", .obj [("type", .str "message"),
                          ("role", .str "assistant"),
                          ("content", .arr [.obj [("type", .str "output_text"),
                                                  ("text", .str "hello from the assistant")]])])]

/-- A line that is not valid JSON: `json.loads` raises `JSONDecodeError`. -/
def lineCorrupt : String := "\x7boops, not valid json"

/-- A `session_meta` record carrying only an id. -/
def lineMetaA : String :=
  "\x7b\"type\": \"session_meta\", \"payload\": \x7b\"id\": \"sid-a\"\x7d\x7d"

/-- The `json.loads` decoding of `lineMetaA`. -/
def jvalMetaA : JVal :=
  .obj [("type", .str "session_meta"), ("payload", .obj [("id", .str "sid-a")])]

/-- A second `session_meta` record with a different id and full metadata. -/
def lineMetaB : String :=
  "\x7b\"type\": \"session_meta\", \"payload\": \x7b\"id\": \"sid-b\", \"timestamp\": \"1970-01-01T00:03:20Z\", \"cwd\": \"/work\", \"cli_version\": \"9.9.9\"\x7d\x7d"

/-- The `json.loads` decoding of `lineMetaB`. -/
def jvalMetaB : JVal :=
  .obj [("type", .str "session_meta"),
        ("payload", .obj [("id", .str "sid-b"),
                          ("timestamp", .str "1970-01-01T00:03:20Z"),
                          ("cwd", .str "/work"),
                          ("cli_version", .str "9.9.9")])]

/-- A `session_meta` record whose record-level timestamp (epoch 100) is
earlier than its payload creation timestamp (epoch 200). -/
def lineMetaC4 : String :=
  "\x7b\"timestamp\": \"1970-01-01T00:01:40Z\", \"type\": \"session_meta\", \"payload\": \x7b\"id\": \"sid-c4\", \"timestamp\": \"1970-01-01T00:03:20Z\"\x7d\x7d"

/-- The `json.loads` decoding of `lineMetaC4`. -/
def jvalMetaC4 : JVal :=
  .obj [("timestamp", .str "1970-01-01T00:01:40Z"),
        ("type", .str "session_meta"),
        ("payload", .obj [("id", .str "sid-c4"),
                          ("timestamp", .str "1970-01-01T00:03:20Z")])]

/-- Decoding table pairing each concrete line with its JSON value. -/
def jsonTable : List (String × JVal) :=
  [(lineMeta1, jvalMeta1), (lineMsg1, jvalMsg1), (lineMetaA, jvalMetaA),
   (lineMetaB, jvalMetaB), (lineMetaC4, jvalMetaC4)]

/-- A concrete stdlib environment: `json.loads` decodes exactly the concrete
lines above (anything else raises), `fromisoformat` knows exactly the two
timestamps above. -/
def envLog : PyEnv :=
  { jsonLoads := fun s => (jsonTable.find? (fun p => p.1 == s)).map Prod.snd,
    isoEpoch := fun s => (isoTable.find? (fun p => p.1 == s)).map Prod.snd }

/-- C1 counterexample: a file holding a well-formed `session_meta` record with
a string id, then one corrupt line, then a further well-formed record, parses
to `None` for the whole file — not to a non-null `SessionDocument` with only
the corrupt line skipped, as the claim states. -/
theorem c1_counterexample :
    parse_codex_session_file envLog "/tmp/rollout-test.jsonl" "rollout-test.jsonl" 0
      (some [lineMeta1, lineCorrupt, lineMsg1]) = ParseResult.noDoc := by
  rfl

/-- Scan state after processing `lineMeta1`. -/
def stMeta1 : ScanState :=
  { sessionId := some "sid-1", createdAt := some 100, cwd := "/tmp",
    cliVersion := "0.98.0", updatedAt := some 100, messages := [], toolNames := [] }

/-- Witness for the C1 amended theorem at the concrete corrupt file. -/
theorem c1_theorem_witness :
    scanLines envLog ScanState.init [lineMeta1] = .ok stMeta1 ∧
    pyStripS lineCorrupt ≠ "" ∧
    envLog.jsonLoads (pyStripS lineCorrupt) = none ∧
    (parse_codex_session_file envLog "/tmp/rollout-test.jsonl" "rollout-test.jsonl" 0
      (some ([lineMeta1] ++ lineCorrupt :: [lineMsg1])) = .noDoc ∧
    parse_codex_session_file envLog "/tmp/rollout-test.jsonl" "rollout-test.jsonl" 0
      none = .noDoc) :=
  ⟨rfl, by decide, rfl,
   c1_unparseable_line_aborts_whole_file envLog "/tmp/rollout-test.jsonl"
     "rollout-test.jsonl" 0 [lineMeta1] [lineMsg1] lineCorrupt stMeta1 rfl (by decide) rfl⟩

/-- The document produced for the two-`session_meta` file of the C3
counterexample. -/
def docC3 : SessionDoc :=
  { session_id := "sid-b", created_at := 200, updated_at := 200, cwd := "/work",
    cli_version := "9.9.9", file_path := "/tmp/a.jsonl", title := "a.jsonl",
    preview := "", content := "" }

/-- C3 counterexample: a file with two `session_meta` records, the first with
id `sid-a` and the second with id `sid-b`, parses to a document whose
`session_id` is `sid-b` — the later record overwrote the earlier one, so the
first occurrence does not win as the claim states. -/
theorem c3_counterexample :
    parse_codex_session_file envLog "/tmp/a.jsonl" "a.jsonl" 42
      (some [lineMetaA, lineMetaB]) = ParseResult.doc docC3 ∧
    docC3.session_id = "sid-b" ∧ ¬docC3.session_id = "sid-a" :=
  ⟨rfl, rfl, by decide⟩

/-- Witness for the C3 amended theorem at the concrete two-meta file. -/
theorem c3_theorem_witness :
    parse_codex_session_file envLog "/tmp/a.jsonl" "a.jsonl" 42
      (some [lineMetaA, lineMetaB]) = ParseResult.doc docC3 ∧
    lastWins (fun l => (metaAssignOfLine envLog l).idA) [lineMetaA, lineMetaB] =
      some "sid-b" ∧
    docC3.session_id = "sid-b" :=
  ⟨rfl, rfl,
   (c3_session_meta_last_occurrence_wins envLog "/tmp/a.jsonl" "a.jsonl" 42
     [lineMetaA, lineMetaB] docC3 rfl).1 "sid-b" rfl⟩

/-- The document produced for the C4 counterexample file. -/
def docC4 : SessionDoc :=
  { session_id := "sid-c4", created_at := 200, updated_at := 100, cwd := "",
    cli_version := "", file_path := "/tmp/b.jsonl", title := "b.jsonl",
    preview := "", content := "" }

/-- C4 counterexample: a well-formed single-record file whose `session_meta`
payload timestamp (epoch 200) is later than its record-level timestamp
(epoch 100) parses to a non-null document with
`updated_at = 100 < 200 = created_at`, violating the claimed invariant. -/
theorem c4_counterexample :
    parse_codex_session_file envLog "/tmp/b.jsonl" "b.jsonl" 0
      (some [lineMetaC4]) = ParseResult.doc docC4 ∧
    docC4.updated_at < docC4.created_at :=
  ⟨rfl, by decide⟩

/-- Scan state after processing `lineMeta1` then `lineMsg1`. -/
def stWell : ScanState :=
  { sessionId := some "sid-1", createdAt := some 100, cwd := "/tmp",
    cliVersion := "0.98.0", updatedAt := some 200,
    messages := [("assistant", "hello from the assistant")], toolNames := [] }

/-- Witness for the C4 amended theorem at a concrete well-formed file. -/
theorem c4_theorem_witness :
    scanLines envLog ScanState.init [lineMeta1, lineMsg1] = .ok stWell ∧
    stWell.sessionId = some "sid-1" ∧ ("sid-1" : String) ≠ "" ∧
    (parse_codex_session_file envLog "/tmp/rollout-test.jsonl" "rollout-test.jsonl" 0
      (some [lineMeta1, lineMsg1]) =
      .doc (sessionDocFromState "/tmp/rollout-test.jsonl" "rollout-test.jsonl" 0
        stWell "sid-1") ∧
    (sessionDocFromState "/tmp/rollout-test.jsonl" "rollout-test.jsonl" 0
      stWell "sid-1").created_at ≤
      (sessionDocFromState "/tmp/rollout-test.jsonl" "rollout-test.jsonl" 0
        stWell "sid-1").updated_at ∧
    (sessionDocFromState "/tmp/rollout-test.jsonl" "rollout-test.jsonl" 0
      stWell "sid-1").session_id = "sid-1") :=
  ⟨rfl, rfl, by decide,
   c4_updated_at_ge_created_at envLog "/tmp/rollout-test.jsonl" "rollout-test.jsonl" 0
     [lineMeta1, lineMsg1] stWell "sid-1" rfl rfl (by decide)
     (fun c u hc hu => by
       have hc2 : (100 : Int) = c := Option.some.inj hc
       have hu2 : (200 : Int) = u := Option.some.inj hu
       omega)
     (fun _ _ => le_refl 0)⟩

/-! ### Live browser query editing (claim C2) -/

/-- The ncurses key codes the query editor tests against. -/
def KEY_LEFT : Int := 260

/-- Right-arrow key code. -/
def KEY_RIGHT : Int := 261

/-- Backspace key code (tested together with 127 and 8). -/
def KEY_BACKSPACE : Int := 263

/-- Delete-character key code. -/
def KEY_DC : Int := 330

/-- Result of handling one key press while the live browser's focus is the
query buffer.  `refreshNow` records whether this key press called
`_refresh_rows(reset_selection=True)` — an immediate recompute of the result
rows with the selection reset to row zero — within the same loop iteration. -/
structure QueryEditStep where
  query : String
  cursor : Nat
  refreshNow : Bool
deriving DecidableEq

/-- Embeds the `focus == "query"` key handling of `_run_curses_live`'s event
loop.  The cursor is a character index, clamped as in the source
(`max(0, ...)`, `min(len(query), ...)`); buffer edits are the Python slices
`query[:cursor-1]+query[cursor:]`, `query[:cursor]+query[cursor+1:]` and
`query[:cursor]+chr(k)+query[cursor:]`. -/
def applyQueryEditKey (query : String) (cursor : Nat) (k : Int) : QueryEditStep :=
  if k = KEY_LEFT then
    { query := query, cursor := cursor - 1, refreshNow := false }
  else if k = KEY_RIGHT then
    { query := query, cursor := min query.data.length (cursor + 1), refreshNow := false }
  else if k = KEY_BACKSPACE ∨ k = 127 ∨ k = 8 then
    if cursor > 0 then
      { query := ⟨query.data.take (cursor - 1) ++ query.data.drop cursor⟩,
        cursor := cursor - 1, refreshNow := true }
    else { query := query, cursor := cursor, refreshNow := false }
  else if k = KEY_DC then
    if cursor < query.data.length then
      { query := ⟨query.data.take cursor ++ query.data.drop (cursor + 1)⟩,
        cursor := cursor, refreshNow := true }
    else { query := query, cursor := cursor, refreshNow := false }
  else if k = 21 then
    { query := "", cursor := 0, refreshNow := true }
  else if 32 ≤ k ∧ k ≤ 126 then
    { query := ⟨query.data.take cursor ++ [Char.ofNat k.toNat] ++ query.data.drop cursor⟩,
      cursor := cursor + 1, refreshNow := true }
  else { query := query, cursor := cursor, refreshNow := false }

/-- C2: the code evaluated at the failing inputs.  In query focus a printable
insert (key 97, `'a'`), a backspace (KEY_BACKSPACE), a delete (KEY_DC at a
non-end cursor) and a clear (Ctrl-U, 21) each recompute the result rows
immediately within the same loop iteration (`refreshNow = true`, the
`_refresh_rows(reset_selection=True)` call) — no debounce timer is marked and
none exists in `_run_curses_live`, so no 120ms delay ever precedes the
recompute. -/
theorem c2_every_edit_recomputes_immediately :
    applyQueryEditKey "ab" 2 97 = { query := "aba", cursor := 3, refreshNow := true } ∧
    applyQueryEditKey "ab" 2 KEY_BACKSPACE =
      { query := "a", cursor := 1, refreshNow := true } ∧
    applyQueryEditKey "ab" 0 KEY_DC = { query := "b", cursor := 0, refreshNow := true } ∧
    applyQueryEditKey "ab" 2 21 = { query := "", cursor := 0, refreshNow := true } := by
  refine ⟨rfl, rfl, rfl, rfl⟩

/-! ### Preview renderer (claims C8, C10) -/

/-- Concatenation of a list of blocks. -/
def concatAll {α : Type} : List (List α) → List α
  | [] => []
  | l :: ls => l ++ concatAll ls

/-- Fixed-width chunks: the slices `s[i:i+w]` for `i = 0, w, 2w, ...` of the
Python loop `for i in range(0, len(s), w)`; the caller clamps `w >= 1`. -/
def chunksOf (w : Nat) (s : List Char) : List (List Char) :=
  (List.range ((s.length + w - 1) / w)).map (fun k => (s.drop (k * w)).take w)

/-- Render of one raw line (the body of the `for line in raw_lines` loop of
`_preview_build_render_lines`): carriage returns are removed, then in wrap
mode an empty line yields one empty render line and a non-empty line its
fixed-width chunks (horizontal panning ignored); in no-wrap mode the line is
panned by `x` (`if x: s = s[x:]`) and truncated to `w`. -/
def renderOneLine (w x : Nat) (wrap : Bool) (line : String) : List String :=
  let s := line.data.filter (fun c => ¬(c = '\r'))
  if wrap then
    if s.isEmpty then [""]
    else (chunksOf w s).map (fun l => (⟨l⟩ : String))
  else
    let s2 := if x ≠ 0 then s.drop x else s
    [⟨s2.take w⟩]

/-- Loop of `_preview_build_render_lines`: for each raw line, first append
`len(rendered)` to the raw-to-render map, then extend the render buffer. -/
def buildRenderGo (w x : Nat) (wrap : Bool) :
    List String → List String → List Nat → List String × List Nat
  | [], rendered, m => (rendered, m)
  | line :: rest, rendered, m =>
    buildRenderGo w x wrap rest (rendered ++ renderOneLine w x wrap line)
      (m ++ [rendered.length])

/-- Embeds `_preview_build_render_lines`; the width and horizontal offset are
clamped as in the source: `w = max(1, int(width))`,
`x = max(0, int(x_offset))`. -/
def _preview_build_render_lines (raw_lines : List String) (width : Int) (wrap : Bool)
    (x_offset : Int) : List String × List Nat :=
  let w := (max 1 width).toNat
  let x := (max 0 x_offset).toNat
  buildRenderGo w x wrap raw_lines [] []

/-- Start indices of each block in the flattened concatenation of blocks of
the given sizes. -/
def startsOf : List Nat → List Nat
  | [] => []
  | c :: cs => 0 :: (startsOf cs).map (· + c)

theorem buildRenderGo_eq (w x : Nat) (wrap : Bool) (raw : List String) :
    ∀ (rendered : List String) (m : List Nat),
      buildRenderGo w x wrap raw rendered m =
        (rendered ++ concatAll (raw.map (renderOneLine w x wrap)),
         m ++ (startsOf (raw.map (fun l => (renderOneLine w x wrap l).length))).map
            (· + rendered.length)) := by
  induction raw with
  | nil =>
    intro rendered m
    simp [buildRenderGo, concatAll, startsOf]
  | cons line rest ih =>
    intro rendered m
    dsimp only [buildRenderGo, List.map_cons, concatAll, startsOf]
    rw [ih]
    simp only [Prod.mk.injEq, List.append_assoc, List.map_cons, List.map_map,
      List.length_append, List.cons_append, List.nil_append, List.singleton_append]
    constructor
    · trivial
    · rw [List.append_cons]
      simp only [Nat.zero_add, List.append_assoc, List.singleton_append]
      congr 1
      congr 1
      apply List.map_congr_left
      intro a _
      simp only [Function.comp_apply]
      omega

/-- Characterization of the renderer: the render buffer is the concatenation
of the per-line renders and the map is the list of block start indices. -/
theorem preview_build_render_lines_eq (raw : List String) (width : Int) (wrap : Bool)
    (x_offset : Int) :
    _preview_build_render_lines raw width wrap x_offset =
      (concatAll (raw.map (renderOneLine (max 1 width).toNat (max 0 x_offset).toNat wrap)),
       startsOf (raw.map (fun l =>
         (renderOneLine (max 1 width).toNat (max 0 x_offset).toNat wrap l).length))) := by
  unfold _preview_build_render_lines
  rw [buildRenderGo_eq]
  simp

/-- C8: rendering characterization and the concrete examples — in wrap mode
each raw line contributes its fixed-width chunks (an empty raw line exactly
one empty render line), in no-wrap mode each raw line is panned by the
horizontal offset and truncated to the width, and the returned map sends each
raw line index to its first render-line index; wrapping
`["abcde", "", "xy"]` at width 2 gives `["ab","cd","e","","xy"]` with starts
`[0,3,4]`, and slicing `"abcdef"` at width 4 with offset 1 unwrapped gives
`["bcde"]`. -/
theorem c8_preview_render_lines :
    (∀ (raw : List String) (width : Int) (wrap : Bool) (x_offset : Int),
      _preview_build_render_lines raw width wrap x_offset =
        (concatAll (raw.map (renderOneLine (max 1 width).toNat (max 0 x_offset).toNat wrap)),
         startsOf (raw.map (fun l =>
           (renderOneLine (max 1 width).toNat (max 0 x_offset).toNat wrap l).length)))) ∧
    (∀ w x, renderOneLine w x true "" = [""]) ∧
    (∀ w x line, renderOneLine w x false line =
      [⟨((line.data.filter (fun c => ¬(c = '\r'))).drop x).take w⟩]) ∧
    _preview_build_render_lines ["abcde", "", "xy"] 2 true 0 =
      (["ab", "cd", "e", "", "xy"], [0, 3, 4]) ∧
    _preview_build_render_lines ["abcdef"] 4 false 1 = (["bcde"], [0]) := by
  refine ⟨preview_build_render_lines_eq, fun w x => rfl, ?_, by decide, by decide⟩
  intro w x line
  by_cases hx : x = 0
  · subst hx
    simp [renderOneLine]
  · simp [renderOneLine, hx]

theorem startsOf_length (counts : List Nat) : (startsOf counts).length = counts.length := by
  induction counts with
  | nil => rfl
  | cons c cs ih => simp [startsOf, ih]

theorem startsOf_pairwise (counts : List Nat) (h : ∀ c ∈ counts, 1 ≤ c) :
    List.Pairwise (· < ·) (startsOf counts) := by
  induction counts with
  | nil => exact List.Pairwise.nil
  | cons c cs ih =>
    dsimp only [startsOf]
    rw [List.pairwise_cons]
    constructor
    · intro b hb
      obtain ⟨a, _, rfl⟩ := List.mem_map.mp hb
      have hc : 1 ≤ c := h c (by simp)
      omega
    · rw [List.pairwise_map]
      exact List.Pairwise.imp (fun hab => by omega)
        (ih (fun d hd => h d (by simp [hd])))

theorem startsOf_lt_sum (counts : List Nat) (h : ∀ c ∈ counts, 1 ≤ c) :
    ∀ e ∈ startsOf counts, e < counts.sum := by
  induction counts with
  | nil => intro e he; simp [startsOf] at he
  | cons c cs ih =>
    intro e he
    dsimp only [startsOf] at he
    rcases List.mem_cons.mp he with rfl | hm
    · have hc : 1 ≤ c := h c (by simp)
      simp only [List.sum_cons]
      omega
    · obtain ⟨a, ha, rfl⟩ := List.mem_map.mp hm
      have := ih (fun d hd => h d (by simp [hd])) a ha
      simp only [List.sum_cons]
      omega

theorem startsOf_head (counts : List Nat) :
    (startsOf counts).head? = if counts.isEmpty then none else some 0 := by
  cases counts <;> rfl

theorem concatAll_length {α : Type} (ls : List (List α)) :
    (concatAll ls).length = (ls.map List.length).sum := by
  induction ls with
  | nil => rfl
  | cons l ls ih => simp [concatAll, ih]

theorem renderOneLine_length_pos (w x : Nat) (wrap : Bool) (line : String) (hw : 1 ≤ w) :
    1 ≤ (renderOneLine w x wrap line).length := by
  unfold renderOneLine
  cases wrap with
  | false => simp
  | true =>
    dsimp only
    by_cases hs : (line.data.filter (fun c => ¬(c = '\r'))).isEmpty
    · rw [if_pos hs]
      simp
    · have hne : line.data.filter (fun c => ¬(c = '\r')) ≠ [] := by
        simpa [List.isEmpty_iff] using hs
      have hlen := List.length_pos.mpr hne
      simp only [hs, if_true, if_false, Bool.false_eq_true, chunksOf, List.length_map,
        List.length_range]
      rw [Nat.le_div_iff_mul_le (by omega)]
      omega

/-- C10: for every list of raw lines, every width (clamped to at least 1),
every wrap flag, and every horizontal offset (clamped to at least 0), the
raw-to-render map has exactly one entry per raw line, is strictly increasing,
starts at 0 when there is any raw line, and each entry is a valid index into
the returned render buffer (each raw line contributing at least one render
line). -/
theorem c10_raw_to_render_map_invariants (raw : List String) (width : Int) (wrap : Bool)
    (x_offset : Int) :
    (_preview_build_render_lines raw width wrap x_offset).2.length = raw.length ∧
    List.Pairwise (· < ·) (_preview_build_render_lines raw width wrap x_offset).2 ∧
    (_preview_build_render_lines raw width wrap x_offset).2.head? =
      (if raw.isEmpty then none else some 0) ∧
    ∀ e ∈ (_preview_build_render_lines raw width wrap x_offset).2,
      e < (_preview_build_render_lines raw width wrap x_offset).1.length := by
  rw [preview_build_render_lines_eq]
  dsimp only
  have hw : 1 ≤ (max 1 width).toNat := by
    have h1 := le_max_left 1 width
    omega
  have hcounts : ∀ c ∈ raw.map
      (fun l => (renderOneLine (max 1 width).toNat (max 0 x_offset).toNat wrap l).length),
      1 ≤ c := by
    intro c hc
    obtain ⟨l, _, rfl⟩ := List.mem_map.mp hc
    exact renderOneLine_length_pos _ _ wrap l hw
  refine ⟨?_, startsOf_pairwise _ hcounts, ?_, ?_⟩
  · rw [startsOf_length, List.length_map]
  · rw [startsOf_head]
    cases raw <;> rfl
  · intro e he
    rw [concatAll_length, List.map_map]
    exact startsOf_lt_sum _ hcounts e he

/-! ### Preview match search (claim C9) -/

/-- Lowercased, filtered search terms:
`[t.lower() for t in (terms or []) if isinstance(t, str) and t.strip()]`. -/
def matchTerms (terms : List String) : List (List Char) :=
  (terms.filter (fun t => pyStripS t ≠ "")).map (fun t => t.data.map Char.toLower)

/-- Distinct-term hit count and minimal first-match column for one lowercased
line: the inner `for t in ts` loop of `_preview_find_matches`. -/
def lineHit (ts : List (List Char)) (s : List Char) : Nat × Option Nat :=
  ts.foldl
    (fun acc t =>
      match findSub t s with
      | none => acc
      | some pos =>
        (acc.1 + 1,
         match acc.2 with
         | none => some pos
         | some fc => if pos < fc then some pos else some fc))
    (0, none)

/-- The pre-sort entries `(i, int(first_col or 0), hits)` collected by
`for i, line in enumerate(lines)`, for lines with at least one hit. -/
def hitEntriesGo (ts : List (List Char)) : Nat → List String → List (Nat × Nat × Nat)
  | _, [] => []
  | i, line :: rest =>
    let hit := lineHit ts (line.data.map Char.toLower)
    if hit.1 ≠ 0 then (i, hit.2.getD 0, hit.1) :: hitEntriesGo ts (i + 1) rest
    else hitEntriesGo ts (i + 1) rest

/-- Pre-sort entry list of `_preview_find_matches`. -/
def hitEntries (lines : List String) (terms : List String) : List (Nat × Nat × Nat) :=
  hitEntriesGo (matchTerms terms) 0 lines

/-- Sort-key order of `out.sort(key=lambda x: (-x[2], x[0], x[1]))` over the
entries `(i, col, hits)`: more distinct hits first, then lower line index,
then lower first-match column. -/
def matchKeyLe (a b : Nat × Nat × Nat) : Prop :=
  b.2.2 < a.2.2 ∨ (a.2.2 = b.2.2 ∧ (a.1 < b.1 ∨ (a.1 = b.1 ∧ a.2.1 ≤ b.2.1)))

instance : DecidableRel matchKeyLe := fun a b => by
  unfold matchKeyLe
  infer_instance

instance : IsTotal (Nat × Nat × Nat) matchKeyLe :=
  ⟨by intro a b; unfold matchKeyLe; omega⟩

instance : IsTrans (Nat × Nat × Nat) matchKeyLe :=
  ⟨by intro a b c hab hbc; unfold matchKeyLe at hab hbc ⊢; omega⟩

/-- Embeds `_preview_find_matches`: an empty term list short-circuits to no
matches; otherwise the hit entries are sorted by the key and projected to
`(line, column)`.  Python's `list.sort` is stable, and the key's line-index
component makes the order antisymmetric on entries of distinct lines, so the
sorted permutation is unique and any sorting algorithm models it. -/
def _preview_find_matches (lines : List String) (terms : List String) :
    List (Nat × Nat) :=
  if matchTerms terms = [] then []
  else ((hitEntries lines terms).insertionSort matchKeyLe).map (fun e => (e.1, e.2.1))

/-- Distinct-term hit count of the preview line at a given index. -/
def hitCountAt (lines : List String) (terms : List String) (i : Nat) : Nat :=
  (lineHit (matchTerms terms) ((lines.getD i "").data.map Char.toLower)).1

/-- Ordering the claim states for the returned `(line, column)` pairs. -/
def matchOutRel (lines terms : List String) (p q : Nat × Nat) : Prop :=
  hitCountAt lines terms q.1 < hitCountAt lines terms p.1 ∨
  (hitCountAt lines terms p.1 = hitCountAt lines terms q.1 ∧
   (p.1 < q.1 ∨ (p.1 = q.1 ∧ p.2 ≤ q.2)))

theorem hitEntriesGo_mem (ts : List (List Char)) :
    ∀ (lines : List String) (i : Nat) (e : Nat × Nat × Nat), e ∈ hitEntriesGo ts i lines →
      i ≤ e.1 ∧
      e.2.2 = (lineHit ts ((lines.getD (e.1 - i) "").data.map Char.toLower)).1 ∧
      e.2.1 = (lineHit ts ((lines.getD (e.1 - i) "").data.map Char.toLower)).2.getD 0 ∧
      e.2.2 ≠ 0 := by
  intro lines
  induction lines with
  | nil =>
    intro i e he
    simp [hitEntriesGo] at he
  | cons line rest ih =>
    intro i e he
    dsimp only [hitEntriesGo] at he
    by_cases hh : (lineHit ts (line.data.map Char.toLower)).1 ≠ 0
    · rw [if_pos hh] at he
      rcases List.mem_cons.mp he with rfl | hm
      · refine ⟨le_refl i, ?_, ?_, hh⟩
        · simp [Nat.sub_self]
        · simp [Nat.sub_self]
      · obtain ⟨h1, h2, h3, h4⟩ := ih (i + 1) e hm
        have h5 : i ≤ e.1 := by omega
        have h6 : e.1 - i = (e.1 - (i + 1)) + 1 := by omega
        rw [h6, List.getD_cons_succ]
        exact ⟨h5, h2, h3, h4⟩
    · rw [if_neg hh] at he
      obtain ⟨h1, h2, h3, h4⟩ := ih (i + 1) e he
      have h5 : i ≤ e.1 := by omega
      have h6 : e.1 - i = (e.1 - (i + 1)) + 1 := by omega
      rw [h6, List.getD_cons_succ]
      exact ⟨h5, h2, h3, h4⟩

theorem hitEntries_mem (lines terms : List String) :
    ∀ e ∈ hitEntries lines terms, e.2.2 = hitCountAt lines terms e.1 ∧ e.2.2 ≠ 0 := by
  intro e he
  obtain ⟨_, h2, _, h4⟩ := hitEntriesGo_mem (matchTerms terms) lines 0 e he
  rw [Nat.sub_zero] at h2
  exact ⟨h2, h4⟩

theorem hitEntriesGo_nil_ts (i : Nat) (lines : List String) :
    hitEntriesGo [] i lines = [] := by
  induction lines generalizing i with
  | nil => rfl
  | cons line rest ih => simp [hitEntriesGo, lineHit, ih]

/-- C9: the match list returned by `_preview_find_matches` is ordered by
number of distinct terms matched on the line descending, then line index
ascending, then first-match column ascending; it is a permutation of the
per-line hit entries (all raw lines scanned); and on
`["hello world","foo bar baz","bar only"]` with terms `["foo","bar"]` the
two-term line (index 1) ranks first. -/
theorem c9_match_ordering (lines terms : List String) :
    List.Pairwise (matchOutRel lines terms) (_preview_find_matches lines terms) ∧
    (_preview_find_matches lines terms).Perm
      ((hitEntries lines terms).map (fun e => (e.1, e.2.1))) ∧
    _preview_find_matches ["hello world", "foo bar baz", "bar only"] ["foo", "bar"] =
      [(1, 0), (2, 0)] := by
  refine ⟨?_, ?_, by decide⟩
  · unfold _preview_find_matches
    by_cases hts : matchTerms terms = []
    · rw [if_pos hts]
      exact List.Pairwise.nil
    · rw [if_neg hts]
      rw [List.pairwise_map]
      refine List.Pairwise.imp_of_mem ?_
        (List.sorted_insertionSort matchKeyLe (hitEntries lines terms))
      intro a b ha hb hr
      have hae := hitEntries_mem lines terms a ((List.mem_insertionSort matchKeyLe).mp ha)
      have hbe := hitEntries_mem lines terms b ((List.mem_insertionSort matchKeyLe).mp hb)
      unfold matchKeyLe at hr
      unfold matchOutRel
      dsimp only
      rw [← hae.1, ← hbe.1]
      omega
  · unfold _preview_find_matches
    by_cases hts : matchTerms terms = []
    · rw [if_pos hts]
      unfold hitEntries
      rw [hts, hitEntriesGo_nil_ts]
      exact List.Perm.refl _
    · rw [if_neg hts]
      exact (List.perm_insertionSort matchKeyLe (hitEntries lines terms)).map _

/-! ### Query builder (claim C6) -/

/-- Word characters of the pattern `[A-Za-z0-9_]`. -/
def isWordChar (c : Char) : Bool :=
  ('A' ≤ c && c ≤ 'Z') || ('a' ≤ c && c ≤ 'z') || ('0' ≤ c && c ≤ '9') || c = '_'

/-- Linear scan collecting maximal runs of word characters; `cur` holds the
current run in reverse. -/
def wordTokensAux (cur : List Char) : List Char → List (List Char)
  | [] => if cur = [] then [] else [cur.reverse]
  | c :: rest =>
    if isWordChar c then wordTokensAux (c :: cur) rest
    else if cur = [] then wordTokensAux [] rest
    else cur.reverse :: wordTokensAux [] rest

/-- Maximal runs of word characters:
`re.findall("[A-Za-z0-9_]+", user_query or "")`. -/
def wordTokensL (l : List Char) : List (List Char) := wordTokensAux [] l

/-- Reserved FTS5 keywords: `t.upper() in ("AND", "OR", "NOT", "NEAR")`. -/
def isReservedKeyword (t : String) : Bool :=
  upperS t = "AND" || upperS t = "OR" || upperS t = "NOT" || upperS t = "NEAR"

/-- Rendered search term of one token: quoted when it collides with a
reserved keyword, else the bare token. -/
def termOf (t : String) : String :=
  if isReservedKeyword t then "\"" ++ t ++ "\"" else t

/-- Output form of one token: keyword collisions stay quoted phrases, other
tokens get the `*` prefix-match marker. -/
def renderTerm (t : String) : String :=
  if isReservedKeyword t then termOf t else termOf t ++ "*"

/-- Embeds `build_prefix_query`: tokenize, then one pass with a seen-set of
rendered terms, quoting keyword collisions and starring everything else. -/
def build_prefix_query (user_query : String) : String :=
  let tokens := (wordTokensL user_query.data).map (fun l => (⟨l⟩ : String))
  if tokens = [] then ""
  else
    let step := fun (acc : List String × List String) (t : String) =>
      if t = "" then acc
      else
        let term := termOf t
        if term ∈ acc.1 then acc
        else (acc.1 ++ [term], acc.2 ++ [if isReservedKeyword t then term else term ++ "*"])
    String.intercalate " " (tokens.foldl step ([], [])).2

/-- Deduplication keeping first occurrences. -/
def dedupFirstGo (seen : List String) : List String → List String
  | [] => []
  | t :: ts => if t ∈ seen then dedupFirstGo seen ts else t :: dedupFirstGo (seen ++ [t]) ts

/-- Deduplication of a token list preserving first-occurrence order. -/
def dedupFirst (ts : List String) : List String := dedupFirstGo [] ts

/-- Specification-side query builder, following the specification's words:
tokenize on word boundaries, deduplicate tokens preserving first-occurrence
order, mark each token for prefix matching, and escape tokens colliding with
reserved boolean keywords as quoted literal phrases. -/
def buildQuerySpec (user_query : String) : String :=
  let tokens := (wordTokensL user_query.data).map (fun l => (⟨l⟩ : String))
  String.intercalate " " ((dedupFirst tokens).map renderTerm)

/-- Well-formedness of a token produced by the tokenizer: non-empty, only
word characters. -/
def goodToken (t : String) : Prop := t.data ≠ [] ∧ ∀ c ∈ t.data, isWordChar c

theorem wordTokensAux_good (l : List Char) :
    ∀ cur, (∀ c ∈ cur, isWordChar c) →
      ∀ tk ∈ wordTokensAux cur l, tk ≠ [] ∧ ∀ c ∈ tk, isWordChar c := by
  induction l with
  | nil =>
    intro cur hcur tk htk
    dsimp only [wordTokensAux] at htk
    by_cases hc : cur = []
    · rw [if_pos hc] at htk
      simp at htk
    · rw [if_neg hc] at htk
      rw [List.mem_singleton.mp htk]
      refine ⟨by simpa using hc, ?_⟩
      intro c hcm
      exact hcur c (List.mem_reverse.mp hcm)
  | cons c rest ih =>
    intro cur hcur tk htk
    dsimp only [wordTokensAux] at htk
    by_cases hw : isWordChar c
    · rw [if_pos hw] at htk
      refine ih (c :: cur) ?_ tk htk
      intro d hd
      rcases List.mem_cons.mp hd with rfl | hd2
      · exact hw
      · exact hcur d hd2
    · rw [if_neg hw] at htk
      by_cases hc : cur = []
      · rw [if_pos hc] at htk
        exact ih [] (by simp) tk htk
      · rw [if_neg hc] at htk
        rcases List.mem_cons.mp htk with rfl | hm
        · refine ⟨by simpa using hc, ?_⟩
          intro d hd
          exact hcur d (List.mem_reverse.mp hd)
        · exact ih [] (by simp) tk hm

theorem wordTokensL_good (l : List Char) :
    ∀ tk ∈ wordTokensL l, tk ≠ [] ∧ ∀ c ∈ tk, isWordChar c :=
  wordTokensAux_good l [] (by simp)

theorem termOf_inj (t u : String) (ht : goodToken t) (hu : goodToken u)
    (h : termOf t = termOf u) : t = u := by
  unfold termOf at h
  by_cases kt : isReservedKeyword t <;> by_cases ku : isReservedKeyword u
  · rw [if_pos kt, if_pos ku] at h
    have hd : '"' :: (t.data ++ ['"']) = '"' :: (u.data ++ ['"']) := congrArg String.data h
    have hd2 := List.cons_injective hd
    exact String.ext (List.append_cancel_right hd2)
  · rw [if_pos kt, if_neg ku] at h
    have hd : '"' :: (t.data ++ ['"']) = u.data := congrArg String.data h
    have hq : ('"' : Char) ∈ u.data := by
      rw [← hd]
      exact List.mem_cons_self _ _
    have := hu.2 '"' hq
    exact absurd this (by decide)
  · rw [if_neg kt, if_pos ku] at h
    have hd : t.data = '"' :: (u.data ++ ['"']) := congrArg String.data h
    have hq : ('"' : Char) ∈ t.data := by
      rw [hd]
      exact List.mem_cons_self _ _
    have := ht.2 '"' hq
    exact absurd this (by decide)
  · rw [if_neg kt, if_neg ku] at h
    exact h

theorem build_fold_eq (tokens : List String) (hgood : ∀ t ∈ tokens, goodToken t) :
    ∀ (seenToks : List String) (outAcc : List String),
      (∀ t ∈ seenToks, goodToken t) →
      (tokens.foldl
        (fun (acc : List String × List String) (t : String) =>
          if t = "" then acc
          else
            let term := termOf t
            if term ∈ acc.1 then acc
            else (acc.1 ++ [term],
                  acc.2 ++ [if isReservedKeyword t then term else term ++ "*"]))
        (seenToks.map termOf, outAcc)).2 =
      outAcc ++ (dedupFirstGo seenToks tokens).map renderTerm := by
  induction tokens with
  | nil =>
    intro seenToks outAcc _
    simp [dedupFirstGo]
  | cons t ts ih =>
    intro seenToks outAcc hseen
    have hgt : goodToken t := hgood t (by simp)
    have hgts : ∀ t ∈ ts, goodToken t := fun u hu => hgood u (by simp [hu])
    have hte : ¬t = "" := by
      intro he
      exact hgt.1 (congrArg String.data he)
    rw [List.foldl_cons]
    dsimp only
    rw [if_neg hte]
    by_cases hmem : t ∈ seenToks
    · have hterm : termOf t ∈ seenToks.map termOf := List.mem_map_of_mem termOf hmem
      rw [if_pos hterm]
      dsimp only [dedupFirstGo]
      rw [if_pos hmem]
      exact ih hgts seenToks outAcc hseen
    · have hterm : termOf t ∉ seenToks.map termOf := by
        intro hc
        obtain ⟨u, hu, he⟩ := List.mem_map.mp hc
        exact hmem (termOf_inj u t (hseen u hu) hgt he ▸ hu)
      rw [if_neg hterm]
      dsimp only [dedupFirstGo]
      rw [if_neg hmem]
      have hseen2 : ∀ u ∈ seenToks ++ [t], goodToken u := by
        intro u hu
        rcases List.mem_append.mp hu with h1 | h2
        · exact hseen u h1
        · rw [List.mem_singleton.mp h2]
          exact hgt
      have := ih hgts (seenToks ++ [t])
        (outAcc ++ [if isReservedKeyword t then termOf t else termOf t ++ "*"]) hseen2
      rw [List.map_append] at this
      dsimp only [List.map_cons, List.map_nil] at this
      rw [this]
      simp [renderTerm, List.append_assoc]

/-- C6: `build_prefix_query` refines the declarative specification — tokenize
on maximal `[A-Za-z0-9_]` runs, deduplicate preserving first-occurrence
order, mark each token for prefix matching with `*`, and escape tokens
colliding case-insensitively with the reserved keywords `AND`/`OR`/`NOT`/
`NEAR` as quoted literal phrases; empty input produces the empty query; and
`"TaskModal.tsx /Users/alice/foo-bar"` produces prefix terms for each of
`TaskModal`, `tsx`, `Users`, `alice`, `foo`, `bar`. -/
theorem c6_build_prefix_query :
    (∀ s : String, build_prefix_query s = buildQuerySpec s) ∧
    build_prefix_query "" = "" ∧
    build_prefix_query "TaskModal.tsx /Users/alice/foo-bar" =
      "TaskModal* tsx* Users* alice* foo* bar*" ∧
    build_prefix_query "and OR near" = "\"and\" \"OR\" \"near\"" ∧
    build_prefix_query "foo FOO foo bar" = "foo* FOO* bar*" := by
  refine ⟨?_, rfl, by decide, by decide, by decide⟩
  intro s
  unfold build_prefix_query buildQuerySpec
  dsimp only
  by_cases htk : (wordTokensL s.data).map (fun l => (⟨l⟩ : String)) = []
  · rw [if_pos htk, htk]
    rfl
  · rw [if_neg htk]
    have hgood : ∀ t ∈ (wordTokensL s.data).map (fun l => (⟨l⟩ : String)), goodToken t := by
      intro t ht
      obtain ⟨tk, htk2, rfl⟩ := List.mem_map.mp ht
      obtain ⟨h1, h2⟩ := wordTokensL_good s.data tk htk2
      exact ⟨h1, fun c hc => h2 c hc⟩
    have heq := build_fold_eq _ hgood [] [] (by intro t ht; simp at ht)
    simp only [List.map_nil] at heq
    rw [heq]
    simp [dedupFirst]

/-! ### Search ranking (claim C5) -/

/-- One candidate row of the `WHERE session_fts MATCH ?` join, carrying the
columns the ordering depends on; `relevance` is the engine-computed
`bm25(session_fts)` value (`COALESCE(u.pinned, 0)` for `pinned`).  SQLite
float arithmetic is modelled with rationals. -/
structure FtsCandidate where
  session_id : String
  updated_at : Int
  pinned : Int
  relevance : ℚ
deriving DecidableEq

/-- The `recency_weight = 0.15` constant of `search_sessions`. -/
def recency_weight : ℚ := 15 / 100

/-- Score expression of `search_sessions`:
`bm25(session_fts) + ((? - s.updated_at) / 86400.0) * ?` with the recency
weight bound to the second placeholder. -/
def searchScore (now : Int) (r : FtsCandidate) : ℚ :=
  r.relevance + (((now : ℚ) - (r.updated_at : ℚ)) / 86400) * recency_weight

/-- Row order of `ORDER BY pinned DESC, score`: higher pinned first, then
lower (better) score first. -/
def searchLe (now : Int) (a b : FtsCandidate) : Prop :=
  b.pinned < a.pinned ∨ (a.pinned = b.pinned ∧ searchScore now a ≤ searchScore now b)

instance (now : Int) : DecidableRel (searchLe now) := fun a b => by
  unfold searchLe
  infer_instance

instance (now : Int) : IsTotal FtsCandidate (searchLe now) := ⟨by
  intro a b
  unfold searchLe
  rcases lt_trichotomy a.pinned b.pinned with h | h | h
  · exact Or.inr (Or.inl h)
  · rcases le_total (searchScore now a) (searchScore now b) with hs | hs
    · exact Or.inl (Or.inr ⟨h, hs⟩)
    · exact Or.inr (Or.inr ⟨h.symm, hs⟩)
  · exact Or.inl (Or.inl h)⟩

instance (now : Int) : IsTrans FtsCandidate (searchLe now) := ⟨by
  intro a b c hab hbc
  unfold searchLe at hab hbc ⊢
  rcases hab with h1 | ⟨h1, h1s⟩ <;> rcases hbc with h2 | ⟨h2, h2s⟩
  · exact Or.inl (h2.trans h1)
  · exact Or.inl (h2 ▸ h1)
  · exact Or.inl (h1 ▸ h2)
  · exact Or.inr ⟨h1.trans h2, h1s.trans h2s⟩⟩

/-- Embeds the ordering and truncation of `search_sessions`: the matched rows
sorted by `ORDER BY pinned DESC, score` and cut by `LIMIT ?`.  SQL specifies
no order among tied rows, so any sorted permutation models the query. -/
def search_sessions (now : Int) (limit : Nat) (rows : List FtsCandidate) :
    List FtsCandidate :=
  (rows.insertionSort (searchLe now)).take limit

/-- C5: `search_sessions` returns rows sorted under pinned-descending then
score-ascending order; within the output no later row has a higher pinned
value than an earlier one (a pinned row always sorts before an unpinned row
regardless of score, as the order relation never lets an unpinned row precede
a pinned one); and for two equally relevant rows with `updated_at` exactly one
day (86400 s) apart, the more recent row's score is lower by exactly the
recency weight 0.15. -/
theorem c5_search_ranking (now : Int) (limit : Nat) (rows : List FtsCandidate) :
    List.Pairwise (searchLe now) (search_sessions now limit rows) ∧
    (∀ i j : Nat, ∀ hi : i < (search_sessions now limit rows).length,
      ∀ hj : j < (search_sessions now limit rows).length, i ≤ j →
      ((search_sessions now limit rows).get ⟨j, hj⟩).pinned ≤
        ((search_sessions now limit rows).get ⟨i, hi⟩).pinned) ∧
    (∀ a b : FtsCandidate, a.relevance = b.relevance →
      a.updated_at = b.updated_at + 86400 →
      searchScore now a = searchScore now b - recency_weight) ∧
    (∀ a b : FtsCandidate, a.pinned = 1 → b.pinned = 0 →
      searchLe now a b ∧ ¬searchLe now b a) := by
  have hsorted : List.Pairwise (searchLe now) (search_sessions now limit rows) :=
    List.Pairwise.sublist (List.take_sublist limit _)
      (List.sorted_insertionSort (searchLe now) rows)
  refine ⟨hsorted, ?_, ?_, ?_⟩
  · intro i j hi hj hij
    rcases Nat.lt_or_ge i j with hlt | hge
    · have hr := List.pairwise_iff_get.mp hsorted ⟨i, hi⟩ ⟨j, hj⟩ hlt
      unfold searchLe at hr
      rcases hr with h | ⟨h, _⟩
      · exact le_of_lt h
      · exact le_of_eq h.symm
    · have : i = j := le_antisymm hij hge
      subst this
      exact le_refl _
  · intro a b hr hu
    unfold searchScore recency_weight
    rw [hr, hu]
    push_cast
    ring
  · intro a b ha hb
    unfold searchLe
    rw [ha, hb]
    constructor
    · exact Or.inl (by norm_num)
    · intro h
      rcases h with h | ⟨h, _⟩ <;> omega

/-- Concrete pinned candidate. -/
def candPinned : FtsCandidate :=
  { session_id := "p", updated_at := 0, pinned := 1, relevance := -1 }

/-- Concrete unpinned candidate with a better (lower) score. -/
def candUnpinned : FtsCandidate :=
  { session_id := "u", updated_at := 86400, pinned := 0, relevance := -2 }

/-- Concrete recent candidate. -/
def candRecent : FtsCandidate :=
  { session_id := "r", updated_at := 86400, pinned := 0, relevance := 5 }

/-- Concrete stale candidate, equally relevant, one day older. -/
def candOld : FtsCandidate :=
  { session_id := "o", updated_at := 0, pinned := 0, relevance := 5 }

/-- Witness for C5 at concrete rows and a concrete query time. -/
theorem c5_search_ranking_witness :
    List.Pairwise (searchLe 172800) (search_sessions 172800 10 [candUnpinned, candPinned]) ∧
    ((search_sessions 172800 10 [candUnpinned, candPinned]).get ⟨1, by decide⟩).pinned ≤
      ((search_sessions 172800 10 [candUnpinned, candPinned]).get ⟨0, by decide⟩).pinned ∧
    searchScore 172800 candRecent = searchScore 172800 candOld - recency_weight ∧
    (searchLe 172800 candPinned candUnpinned ∧ ¬searchLe 172800 candUnpinned candPinned) :=
  ⟨(c5_search_ranking 172800 10 [candUnpinned, candPinned]).1,
   (c5_search_ranking 172800 10 [candUnpinned, candPinned]).2.1 0 1 (by decide) (by decide)
     (by decide),
   (c5_search_ranking 172800 10 [candUnpinned, candPinned]).2.2.1 candRecent candOld rfl
     (by decide),
   (c5_search_ranking 172800 10 [candUnpinned, candPinned]).2.2.2 candPinned candUnpinned
     rfl rfl⟩

/-- Witness for C10 at a concrete render input. -/
theorem c10_map_invariants_witness :
    (_preview_build_render_lines ["abcde", "", "xy"] 2 true 0).2.length =
      (["abcde", "", "xy"] : List String).length ∧
    List.Pairwise (· < ·) (_preview_build_render_lines ["abcde", "", "xy"] 2 true 0).2 ∧
    (_preview_build_render_lines ["abcde", "", "xy"] 2 true 0).2.head? =
      (if (["abcde", "", "xy"] : List String).isEmpty then none else some 0) ∧
    ∀ e ∈ (_preview_build_render_lines ["abcde", "", "xy"] 2 true 0).2,
      e < (_preview_build_render_lines ["abcde", "", "xy"] 2 true 0).1.length :=
  c10_raw_to_render_map_invariants ["abcde", "", "xy"] 2 true 0

/-! ### Sync engine (claim C7) -/

/-- The `PARSER_VERSION = 6` constant of the source. -/
def PARSER_VERSION : Nat := 6

/-- Stat fingerprint of a file: `st_mtime_ns` and `st_size`. -/
structure StatInfo where
  mtime_ns : Int
  size_bytes : Int
deriving DecidableEq

/-- One enumerated session file: its path, its stat result (`none` models
`FileNotFoundError` from `p.stat()`), and the value
`parse_codex_session_file(p)` would return for its current content. -/
structure EnumFile where
  path : String
  stat : Option StatInfo
  parsed : ParseResult

/-- Default annotation row created by
`INSERT OR IGNORE INTO user_sessions(session_id, updated_at)`. -/
structure AnnotationRow where
  pinned : Int
  tags : String
  note : String
  updated_at : Int

/-- Relational-store rows the sync engine reads and writes, keyed tables
modelled as association lists (one row per primary key). -/
structure IndexState where
  meta : List (String × String)
  files : List (String × StatInfo)
  sessions : List (String × (SessionDoc × (String × String × String × String)))
  userSessions : List (String × AnnotationRow)
  fts : List (String × String)

/-- Keyed upsert (`INSERT ... ON CONFLICT DO UPDATE`): the row for the key is
replaced, other rows untouched. -/
def assocSet {α : Type} (d : List (String × α)) (k : String) (v : α) : List (String × α) :=
  (d.filter (fun p => !(p.1 == k))) ++ [(k, v)]

/-- Keyed lookup (`SELECT ... WHERE key = ?`). -/
def assocGet? {α : Type} (d : List (String × α)) (k : String) : Option α :=
  (d.find? (fun p => p.1 == k)).map Prod.snd

/-- Digit-string parse: `int(pv) if pv and pv.isdigit() else 0`. -/
def parseDigits (s : String) : Option Nat :=
  if s.data ≠ [] ∧ s.data.all Char.isDigit then
    some (s.data.foldl (fun n c => n * 10 + (c.toNat - 48)) 0)
  else none

/-- The parser version recorded in the `meta` table, as the source reads it. -/
def storedParserVersion (st : IndexState) : Nat :=
  match assocGet? st.meta "parser_version" with
  | some s => (parseDigits s).getD 0
  | none => 0

/-- Body of the `for p in files` loop of `index_sessions`, threading the
store, the changed count, and (instrumentation for the claims) the list of
paths handed to the parser.  `none` models an uncaught parser exception
aborting the run.  `resolveRepo` abstracts the git subprocess calls; being a
pure function of the cwd it makes the per-run `git_cache` transparent. -/
def syncFile (resolveRepo : String → String × String × String × String) (force_reindex : Bool)
    (now : Int) (acc : Option (IndexState × Nat × List String)) (f : EnumFile) :
    Option (IndexState × Nat × List String) :=
  match acc with
  | none => none
  | some (st, changed, parsed) =>
    match f.stat with
    | none => some (st, changed, parsed)
    | some si =>
      let row := assocGet? st.files f.path
      if !force_reindex && (match row with
          | some r => r.mtime_ns == si.mtime_ns && r.size_bytes == si.size_bytes
          | none => false) then
        some (st, changed, parsed)
      else
        let parsed := parsed ++ [f.path]
        match f.parsed with
        | .crash => none
        | .noDoc => some (st, changed, parsed)
        | .doc d =>
          let repo := if d.cwd ≠ "" then resolveRepo d.cwd else ("", "", "", "")
          let sessions := assocSet st.sessions d.session_id (d, repo)
          let userSessions :=
            if st.userSessions.any (fun p => p.1 == d.session_id) then st.userSessions
            else st.userSessions ++ [(d.session_id,
              { pinned := 0, tags := "", note := "", updated_at := now })]
          let fts := (st.fts.filter (fun p => ¬(p.1 == d.session_id))) ++
            [(d.session_id, d.content)]
          let files := assocSet st.files f.path si
          some ({ st with
                    sessions := sessions
                    userSessions := userSessions
                    fts := fts
                    files := files },
                changed + 1, parsed)

/-- Embeds `index_sessions`: read the stored parser version (forcing a full
reindex on mismatch and writing the current version back), record the run
start and reason, process each enumerated file, record the finish time.
`files` is the sorted enumeration of `iter_session_files`; `now` is the run
timestamp and `fin` the finish timestamp.  The result is the final store, the
changed count, and the instrumented list of file paths that were handed to
the parser; `none` models an uncaught parser exception aborting the run. -/
def index_sessions (resolveRepo : String → String × String × String × String)
    (st0 : IndexState) (files : List EnumFile) (force : Bool) (now fin : Int) :
    Option (IndexState × Nat × List String) :=
  let current := storedParserVersion st0
  let pvMismatch : Bool := current != PARSER_VERSION
  let st1 := if pvMismatch then
      { st0 with meta := assocSet st0.meta "parser_version" (toString PARSER_VERSION) }
    else st0
  let force_reindex := pvMismatch || force
  let st2 := { st1 with meta := assocSet st1.meta "last_index_started_at" (toString now) }
  let reason := if force then "forced" else if force_reindex then "parser_bump"
    else "incremental"
  let st3 := { st2 with meta := assocSet st2.meta "last_index_reason" reason }
  match files.foldl (syncFile resolveRepo force_reindex now) (some (st3, 0, [])) with
  | none => none
  | some (st, changed, parsed) =>
    some ({ st with meta := assocSet st.meta "last_index_finished_at" (toString fin) },
      changed, parsed)

theorem assocGet?_assocSet_ne {α : Type} (d : List (String × α)) (k k' : String) (v : α)
    (h : k' ≠ k) : assocGet? (assocSet d k v) k' = assocGet? d k' := by
  have hkf : (k == k') = false := beq_eq_false_iff_ne.mpr (Ne.symm h)
  unfold assocSet assocGet?
  induction d with
  | nil =>
    simp only [List.filter_nil, List.nil_append, List.find?_cons, hkf, List.find?_nil]
  | cons p ps ih =>
    rw [List.filter_cons]
    by_cases hpk : p.1 = k
    · have h2f : (p.1 == k') = false := beq_eq_false_iff_ne.mpr (hpk ▸ Ne.symm h)
      rw [if_neg (by simp [hpk])]
      simp only [List.find?_cons, h2f]
      exact ih
    · rw [if_pos (by simp [hpk])]
      rw [List.cons_append]
      by_cases hpk' : p.1 = k'
      · have h2t : (p.1 == k') = true := beq_iff_eq.mpr hpk'
        simp only [List.find?_cons, h2t]
      · have h2f : (p.1 == k') = false := beq_eq_false_iff_ne.mpr hpk'
        simp only [List.find?_cons, h2f]
        exact ih

theorem syncFold_skips (resolveRepo : String → String × String × String × String)
    (now : Int) (fs : List EnumFile) :
    ∀ (st : IndexState) (ch : Nat) (ps : List String),
      (∀ f ∈ fs, ∃ si, f.stat = some si ∧ assocGet? st.files f.path = some si) →
      fs.foldl (syncFile resolveRepo false now) (some (st, ch, ps)) = some (st, ch, ps) := by
  induction fs with
  | nil => intro st ch ps _; rfl
  | cons f fs ih =>
    intro st ch ps h
    obtain ⟨si, hstat, hrow⟩ := h f (by simp)
    rw [List.foldl_cons]
    have hstep : syncFile resolveRepo false now (some (st, ch, ps)) f = some (st, ch, ps) := by
      unfold syncFile
      dsimp only
      rw [hstat]
      dsimp only
      rw [hrow]
      simp
    rw [hstep]
    exact ih st ch ps (fun g hg => h g (by simp [hg]))

theorem syncFile_force_step (resolveRepo : String → String × String × String × String)
    (now : Int) (st : IndexState) (ch : Nat) (ps : List String) (f : EnumFile)
    (hstat : f.stat ≠ none) (hcrash : f.parsed ≠ ParseResult.crash) :
    ∃ st' ch', syncFile resolveRepo true now (some (st, ch, ps)) f =
      some (st', ch', ps ++ [f.path]) := by
  unfold syncFile
  dsimp only
  cases hs : f.stat with
  | none => exact absurd hs hstat
  | some si =>
    dsimp only
    rw [if_neg (by simp)]
    cases hp : f.parsed with
    | crash => exact absurd hp hcrash
    | noDoc => exact ⟨st, ch, rfl⟩
    | doc d => exact ⟨_, ch + 1, rfl⟩

theorem syncFold_force (resolveRepo : String → String × String × String × String)
    (now : Int) (fs : List EnumFile) :
    ∀ (st : IndexState) (ch : Nat) (ps : List String),
      (∀ f ∈ fs, f.stat ≠ none ∧ f.parsed ≠ ParseResult.crash) →
      ∃ st' ch', fs.foldl (syncFile resolveRepo true now) (some (st, ch, ps)) =
        some (st', ch', ps ++ fs.map (fun f => f.path)) := by
  induction fs with
  | nil => intro st ch ps _; exact ⟨st, ch, by simp⟩
  | cons f fs ih =>
    intro st ch ps h
    obtain ⟨hstat, hcrash⟩ := h f (by simp)
    obtain ⟨st1, ch1, hstep⟩ := syncFile_force_step resolveRepo now st ch ps f hstat hcrash
    rw [List.foldl_cons, hstep]
    obtain ⟨st', ch', hrec⟩ := ih st1 ch1 (ps ++ [f.path]) (fun g hg => h g (by simp [hg]))
    refine ⟨st', ch', ?_⟩
    rw [hrec]
    simp

theorem syncFile_changed_step (resolveRepo : String → String × String × String × String)
    (now : Int) (st : IndexState) (ch : Nat) (ps : List String) (f : EnumFile)
    (si r : StatInfo) (hstat : f.stat = some si)
    (hrow : assocGet? st.files f.path = some r)
    (hdiff : r.mtime_ns ≠ si.mtime_ns ∨ r.size_bytes ≠ si.size_bytes)
    (hcrash : f.parsed ≠ ParseResult.crash) :
    ∃ st' ch', syncFile resolveRepo false now (some (st, ch, ps)) f =
      some (st', ch', ps ++ [f.path]) ∧
      (st'.files = st.files ∨ st'.files = assocSet st.files f.path si) := by
  unfold syncFile
  dsimp only
  rw [hstat]
  dsimp only
  rw [hrow]
  rw [if_neg (by rcases hdiff with h | h <;> simp [h])]
  cases hp : f.parsed with
  | crash => exact absurd hp hcrash
  | noDoc => exact ⟨st, ch, rfl, Or.inl rfl⟩
  | doc d => exact ⟨_, ch + 1, rfl, Or.inr rfl⟩

/-- The store state after the meta-table preamble of `index_sessions`
(parser-version write-back on mismatch, `last_index_started_at`,
`last_index_reason`), before the file loop runs. -/
def indexPrep (st0 : IndexState) (force : Bool) (now : Int) : IndexState :=
  let current := storedParserVersion st0
  let pvMismatch : Bool := current != PARSER_VERSION
  let st1 := if pvMismatch then
      { st0 with meta := assocSet st0.meta "parser_version" (toString PARSER_VERSION) }
    else st0
  let force_reindex := pvMismatch || force
  let st2 := { st1 with meta := assocSet st1.meta "last_index_started_at" (toString now) }
  let reason := if force then "forced" else if force_reindex then "parser_bump"
    else "incremental"
  { st2 with meta := assocSet st2.meta "last_index_reason" reason }

theorem indexPrep_files (st0 : IndexState) (force : Bool) (now : Int) :
    (indexPrep st0 force now).files = st0.files := by
  unfold indexPrep
  dsimp only
  split <;> rfl

theorem index_sessions_eq (resolveRepo : String → String × String × String × String)
    (st0 : IndexState) (files : List EnumFile) (force : Bool) (now fin : Int) :
    index_sessions resolveRepo st0 files force now fin =
      match files.foldl
          (syncFile resolveRepo ((storedParserVersion st0 != PARSER_VERSION) || force) now)
          (some (indexPrep st0 force now, 0, [])) with
      | none => none
      | some (st, changed, parsed) =>
        some ({ st with meta := assocSet st.meta "last_index_finished_at" (toString fin) },
          changed, parsed) := rfl

theorem syncFold_one_changed (resolveRepo : String → String × String × String × String)
    (now : Int) (pre post : List EnumFile) (f : EnumFile) (si r : StatInfo) (st : IndexState)
    (hpre : ∀ g ∈ pre, ∃ s, g.stat = some s ∧ assocGet? st.files g.path = some s)
    (hstat : f.stat = some si)
    (hrow : assocGet? st.files f.path = some r)
    (hdiff : r.mtime_ns ≠ si.mtime_ns ∨ r.size_bytes ≠ si.size_bytes)
    (hcrash : f.parsed ≠ ParseResult.crash)
    (hpost : ∀ g ∈ post, g.path ≠ f.path ∧
      ∃ s, g.stat = some s ∧ assocGet? st.files g.path = some s) :
    ∃ st' ch', (pre ++ f :: post).foldl (syncFile resolveRepo false now) (some (st, 0, [])) =
      some (st', ch', [f.path]) := by
  rw [List.foldl_append]
  rw [syncFold_skips resolveRepo now pre st 0 [] hpre]
  rw [List.foldl_cons]
  obtain ⟨st1, ch1, hstep, hfiles⟩ :=
    syncFile_changed_step resolveRepo now st 0 [] f si r hstat hrow hdiff hcrash
  rw [List.nil_append] at hstep
  rw [hstep]
  have hpost' : ∀ g ∈ post, ∃ s, g.stat = some s ∧ assocGet? st1.files g.path = some s := by
    intro g hg
    obtain ⟨hne, s, h1, h2⟩ := hpost g hg
    refine ⟨s, h1, ?_⟩
    rcases hfiles with hsame | hset
    · rw [hsame]; exact h2
    · rw [hset, assocGet?_assocSet_ne _ _ _ _ hne]; exact h2
  rw [syncFold_skips resolveRepo now post st1 ch1 [f.path] hpost']
  exact ⟨st1, ch1, rfl⟩

/-- C7: the sync engine compares each enumerated file to its stored
fingerprint `(mtime_ns, size_bytes)` and skips an unchanged file without
handing it to the parser, unless the stored parser-version marker differs
from the running version or a forced reindex is requested: (a) with the
stored parser version current, no force flag, and every enumerated file's
stat matching its stored fingerprint, the run parses nothing and reports
zero changes; (b) if under the same conditions exactly one file's stored
fingerprint differs from its stat in `mtime_ns` or `size_bytes`, exactly
that file is handed to the parser; (c) a force flag or a parser-version
mismatch makes every statable, non-crashing file be re-parsed regardless of
fingerprints. -/
theorem c7_sync_change_detection (resolveRepo : String → String × String × String × String)
    (st0 : IndexState) (now fin : Int) :
    (∀ (files : List EnumFile),
      storedParserVersion st0 = PARSER_VERSION →
      (∀ f ∈ files, ∃ si, f.stat = some si ∧ assocGet? st0.files f.path = some si) →
      ∃ st', index_sessions resolveRepo st0 files false now fin = some (st', 0, [])) ∧
    (∀ (pre post : List EnumFile) (f : EnumFile) (si r : StatInfo),
      storedParserVersion st0 = PARSER_VERSION →
      (∀ g ∈ pre, ∃ s, g.stat = some s ∧ assocGet? st0.files g.path = some s) →
      f.stat = some si →
      assocGet? st0.files f.path = some r →
      (r.mtime_ns ≠ si.mtime_ns ∨ r.size_bytes ≠ si.size_bytes) →
      f.parsed ≠ ParseResult.crash →
      (∀ g ∈ post, g.path ≠ f.path ∧
        ∃ s, g.stat = some s ∧ assocGet? st0.files g.path = some s) →
      ∃ st' ch', index_sessions resolveRepo st0 (pre ++ f :: post) false now fin =
        some (st', ch', [f.path])) ∧
    (∀ (files : List EnumFile) (force : Bool),
      (force = true ∨ storedParserVersion st0 ≠ PARSER_VERSION) →
      (∀ f ∈ files, f.stat ≠ none ∧ f.parsed ≠ ParseResult.crash) →
      ∃ st' ch', index_sessions resolveRepo st0 files force now fin =
        some (st', ch', files.map (fun f => f.path))) := by
  refine ⟨?_, ?_, ?_⟩
  · intro files hpv hall
    have h1 : ((storedParserVersion st0 != PARSER_VERSION) || false) = false := by
      rw [hpv]; simp
    rw [index_sessions_eq, h1]
    rw [syncFold_skips resolveRepo now files (indexPrep st0 false now) 0 []
      (by intro f hf
          obtain ⟨si, hs, hr⟩ := hall f hf
          exact ⟨si, hs, by rw [indexPrep_files]; exact hr⟩)]
    exact ⟨_, rfl⟩
  · intro pre post f si r hpv hpre hstat hrow hdiff hcrash hpost
    have h1 : ((storedParserVersion st0 != PARSER_VERSION) || false) = false := by
      rw [hpv]; simp
    rw [index_sessions_eq, h1]
    obtain ⟨st', ch', hfold⟩ := syncFold_one_changed resolveRepo now pre post f si r
      (indexPrep st0 false now)
      (by intro g hg
          obtain ⟨s, hs, hr⟩ := hpre g hg
          exact ⟨s, hs, by rw [indexPrep_files]; exact hr⟩)
      hstat
      (by rw [indexPrep_files]; exact hrow)
      hdiff hcrash
      (by intro g hg
          obtain ⟨hne, s, hs, hr⟩ := hpost g hg
          exact ⟨hne, s, hs, by rw [indexPrep_files]; exact hr⟩)
    rw [hfold]
    exact ⟨_, ch', rfl⟩
  · intro files force hdisj hall
    have h1 : ((storedParserVersion st0 != PARSER_VERSION) || force) = true := by
      rcases hdisj with hf | hpv
      · rw [hf]; simp
      · simp only [Bool.or_eq_true, bne_iff_ne, ne_eq]
        exact Or.inl hpv
    rw [index_sessions_eq, h1]
    obtain ⟨st', ch', hfold⟩ :=
      syncFold_force resolveRepo now files (indexPrep st0 force now) 0 [] hall
    rw [List.nil_append] at hfold
    rw [hfold]
    exact ⟨_, ch', rfl⟩

/-- A constant repo resolver for the concrete sync runs. -/
def rrW : String → String × String × String × String := fun _ => ("", "", "", "")

/-- Stored fingerprint of the first concrete file. -/
def siA : StatInfo := ⟨1, 10⟩

/-- Stored fingerprint of the second concrete file. -/
def siB : StatInfo := ⟨2, 20⟩

/-- Current stat of the second file after it was touched: `mtime_ns` moved
from 2 to 3, size unchanged. -/
def siB2 : StatInfo := ⟨3, 20⟩

/-- Concrete index store: parser version 6 recorded, both files fingerprinted. -/
def st0W : IndexState :=
  { meta := [("parser_version", "6")]
    files := [("a.jsonl", siA), ("b.jsonl", siB)]
    sessions := []
    userSessions := []
    fts := [] }

/-- First enumerated file, unchanged on disk. -/
def efA : EnumFile := ⟨"a.jsonl", some siA, ParseResult.noDoc⟩

/-- Second enumerated file, unchanged on disk. -/
def efB : EnumFile := ⟨"b.jsonl", some siB, ParseResult.noDoc⟩

/-- Second enumerated file after being touched: stat no longer matches the
stored fingerprint. -/
def efB2 : EnumFile := ⟨"b.jsonl", some siB2, ParseResult.noDoc⟩

/-- Witness for C7 at a concrete two-file store: an unchanged run parses
nothing, touching only the second file re-parses exactly it, and a forced
run re-parses both files. -/
theorem c7_theorem_witness :
    (∃ st', index_sessions rrW st0W [efA, efB] false 50 60 = some (st', 0, [])) ∧
    (∃ st' ch', index_sessions rrW st0W [efA, efB2] false 50 60 =
      some (st', ch', ["b.jsonl"])) ∧
    (∃ st' ch', index_sessions rrW st0W [efA, efB] true 50 60 =
      some (st', ch', ["a.jsonl", "b.jsonl"])) := by
  refine ⟨?_, ?_, ?_⟩
  · exact (c7_sync_change_detection rrW st0W 50 60).1 [efA, efB] (by decide)
      (by intro f hf
          simp only [List.mem_cons, List.not_mem_nil, or_false] at hf
          rcases hf with rfl | rfl
          · exact ⟨siA, rfl, by decide⟩
          · exact ⟨siB, rfl, by decide⟩)
  · exact (c7_sync_change_detection rrW st0W 50 60).2.1 [efA] [] efB2 siB2 siB (by decide)
      (by intro g hg
          simp only [List.mem_singleton] at hg
          subst hg
          exact ⟨siA, rfl, by decide⟩)
      rfl (by decide) (Or.inl (by decide))
      (fun h => ParseResult.noConfusion h)
      (by intro g hg; exact absurd hg (List.not_mem_nil g))
  · exact (c7_sync_change_detection rrW st0W 50 60).2.2 [efA, efB] true (Or.inl rfl)
      (by intro f hf
          simp only [List.mem_cons, List.not_mem_nil, or_false] at hf
          rcases hf with rfl | rfl
          · exact ⟨fun h => Option.noConfusion h, fun h => ParseResult.noConfusion h⟩
          · exact ⟨fun h => Option.noConfusion h, fun h => ParseResult.noConfusion h⟩)
